import Mathlib

/-!
# vimix: views (`View.h`) and the OBJ importer (`ext/obj/ObjLoader.cpp`)

A shallow embedding of the inline members of `View.h` and of the functions of
`ObjLoader.cpp`, followed by the properties established about them.

Conventions.
* `std::string` is a list of characters (`Str`), one `Char` per byte.
* `float` values are idealised as rationals; `glm::vec2` is a pair of them.
* Reference parameters are passed in and returned.
* An out-of-bounds `operator[]` on a `std::vector` is undefined behaviour; the
  embedding returns `none` for a run that performs one.
* Types that belong to collaborators whose headers are not part of the sources
  (`Scene`, `Source`, `Node`, `Session`) are type parameters.
-/

namespace Vimix

/-! ## View.h : the base class -/

/-- The enumeration `View::Mode`. -/
inductive Mode
  | RENDERING | MIXING | GEOMETRY | LAYER | APPEARANCE | TRANSITION | INVALID
deriving DecidableEq

/-- The enumeration `View::CursorType`. -/
inductive CursorType
  | Cursor_Arrow | Cursor_TextInput | Cursor_ResizeAll | Cursor_ResizeNS | Cursor_ResizeEW
  | Cursor_ResizeNESW | Cursor_ResizeNWSE | Cursor_Hand | Cursor_NotAllowed
deriving DecidableEq

/-- The struct `View::Cursor`; the second constructor `Cursor(t, i)` is `Cursor.mk t i`. -/
structure Cursor where
  type : CursorType
  info : String
deriving DecidableEq

/-- The default constructor `Cursor() { type = Cursor_Arrow; info = "";}`. -/
def Cursor.default : Cursor :=
  { type := CursorType.Cursor_Arrow, info := "" }

/-- A `glm::vec2`. -/
abbrev vec2 : Type := ℚ × ℚ

/-- The data members of a `View` object: `scene`, `current_action_`, `current_id_`, `mode_`. -/
structure View (Scene : Type) where
  scene : Scene
  current_action_ : String
  current_id_ : Nat
  mode_ : Mode

section BaseView

variable {Scene Source Node : Type}

/-- The accessor `inline Mode mode() const { return mode_; }`. -/
def View.mode (v : View Scene) : Mode :=
  v.mode_

/-- The member `virtual void zoom (float) {}`: the object after the call. -/
def View.zoom (v : View Scene) (_factor : ℚ) : View Scene :=
  v

/-- The member `virtual void resize (int) {}`: the object after the call. -/
def View.resize (v : View Scene) (_level : Int) : View Scene :=
  v

/-- The member `virtual int size () { return 0; }`: the returned value and the object after the
call. -/
def View.size (v : View Scene) : Int × View Scene :=
  (0, v)

/-- The member `virtual void centerSource(Source *) {}`: the object after the call. -/
def View.centerSource (v : View Scene) (_s : Option Source) : View Scene :=
  v

/-- The member `virtual Cursor grab (Source*, vec2, vec2, std::pair<Node *, vec2>)`, whose body is
`return Cursor();`: the returned value and the object after the call. -/
def View.grab (v : View Scene) (_s : Option Source) (_p0 _p1 : vec2)
    (_pick : Option Node × vec2) : Cursor × View Scene :=
  (Cursor.default, v)

/-- A call of one of the members of the base class that `View.h` defines with an empty body or
with `return 0`. -/
inductive CameraCall (Source : Type)
  | zoom (factor : ℚ)
  | resize (level : Int)
  | size
  | centerSource (s : Option Source)

/-- The object after one such call. -/
def View.cameraCall (v : View Scene) : CameraCall Source → View Scene
  | CameraCall.zoom f => v.zoom f
  | CameraCall.resize n => v.resize n
  | CameraCall.size => v.size.2
  | CameraCall.centerSource s => v.centerSource s

/-- The object after a sequence of such calls, first call first. -/
def View.cameraCalls (v : View Scene) (calls : List (CameraCall Source)) : View Scene :=
  calls.foldl View.cameraCall v

end BaseView

/-! ### Members whose bodies are in `View.cpp`

`View.h` only declares the constructor and the members `update`, `draw`, `recenter`, `pick`,
`select`, `selectAll`, `drag`, `initiate`, `terminate`, and the members of the derived classes.
Their bodies are not part of the sources; they are modelled from the specification. -/

/-- The scene-graph primitives that the modelled members delegate to; the scene graph is a
collaborator of the views (specification, section 6). -/
structure SceneOps (Scene Node : Type) where
  recenter : Scene → Scene
  pick : Scene → vec2 → Option Node × vec2
  select : Scene → vec2 → vec2 → Scene
  selectAll : Scene → Scene
  drag : Scene → String → vec2 → vec2 → Scene × String × Cursor

section ModelledView

variable {Scene Source Node : Type}

/-- Modelled from the spec: the constructor `View::View(Mode m)`, declared in `View.h` and defined
in `View.cpp`. Section 3: the mode is "fixed at View construction". The scene and the initial
values of the other members are arguments. -/
def View.new (m : Mode) (scene : Scene) (action : String) (id : Nat) : View Scene :=
  { scene := scene, current_action_ := action, current_id_ := id, mode_ := m }

/-- Modelled from the spec: `View::update(float dt)`, defined in `View.cpp`. Section 4.1: "base
implementation is a no-op hook". -/
def View.update (v : View Scene) (_dt : ℚ) : View Scene :=
  v

/-- Modelled from the spec: `View::draw()`, defined in `View.cpp`. Section 4.1: "issue the render
of scene through the external rendering backend; base implementation renders nothing extra". -/
def View.draw (v : View Scene) : View Scene :=
  v

/-- Modelled from the spec: `View::recenter()`, defined in `View.cpp`. Section 4.1: "reset the
view's camera to a canonical framing of the scene". -/
def View.recenter (ops : SceneOps Scene Node) (v : View Scene) : View Scene :=
  { v with scene := ops.recenter v.scene }

/-- Modelled from the spec: `View::pick(glm::vec2)`, defined in `View.cpp`. Section 4.1:
"hit-test the scene at a screen-space point; returns the deepest/topmost hit node and the local
coordinate of the hit, or a null-node sentinel if nothing is hit". -/
def View.pick (ops : SceneOps Scene Node) (v : View Scene) (p : vec2) :
    (Option Node × vec2) × View Scene :=
  (ops.pick v.scene p, v)

/-- Modelled from the spec: `View::select(glm::vec2, glm::vec2)`, defined in `View.cpp`.
Section 4.1: "mark a rectangular screen-space region as selected; mutates Source/Node selection
state external to the View itself (selection set is owned by the Scene or a collaborator)". -/
def View.select (ops : SceneOps Scene Node) (v : View Scene) (p0 p1 : vec2) : View Scene :=
  { v with scene := ops.select v.scene p0 p1 }

/-- Modelled from the spec: `View::selectAll()`, defined in `View.cpp`. Section 4.1, as for
`select`, with everything selected. -/
def View.selectAll (ops : SceneOps Scene Node) (v : View Scene) : View Scene :=
  { v with scene := ops.selectAll v.scene }

/-- Modelled from the spec: `View::drag(glm::vec2, glm::vec2)`, defined in `View.cpp`.
Section 4.1: "interpret a pointer drag not targeting any Source (e.g., panning, rubber-band
select) and report the cursor feedback appropriate to the current current_action_"; section 3:
`current_action_` is "mutable during grab/drag". -/
def View.drag (ops : SceneOps Scene Node) (v : View Scene) (p0 p1 : vec2) :
    Cursor × View Scene :=
  let r := ops.drag v.scene v.current_action_ p0 p1
  (r.2.2, { v with scene := r.1, current_action_ := r.2.1 })

/-- Modelled from the spec: `View::initiate()`, defined in `View.cpp`. Section 4.1: "bracket a
multi-step gesture; base implementation is a no-op bracket". -/
def View.initiate (v : View Scene) : View Scene :=
  v

/-- Modelled from the spec: `View::terminate()`, defined in `View.cpp`. Section 4.1: "bracket a
multi-step gesture; base implementation is a no-op bracket". -/
def View.terminate (v : View Scene) : View Scene :=
  v

/-- A call of one of the operations of a `View`, with its arguments. -/
inductive ViewCall (Source Node : Type)
  | update (dt : ℚ)
  | draw
  | zoom (factor : ℚ)
  | resize (level : Int)
  | size
  | recenter
  | centerSource (s : Option Source)
  | pick (p : vec2)
  | select (p0 p1 : vec2)
  | selectAll
  | drag (p0 p1 : vec2)
  | initiate
  | terminate
  | grab (s : Option Source) (p0 p1 : vec2) (pick : Option Node × vec2)

/-- The object after one call on a base `View`. -/
def View.call (ops : SceneOps Scene Node) (v : View Scene) : ViewCall Source Node → View Scene
  | ViewCall.update dt => v.update dt
  | ViewCall.draw => v.draw
  | ViewCall.zoom f => v.zoom f
  | ViewCall.resize n => v.resize n
  | ViewCall.size => v.size.2
  | ViewCall.recenter => v.recenter ops
  | ViewCall.centerSource s => v.centerSource s
  | ViewCall.pick p => (v.pick ops p).2
  | ViewCall.select p0 p1 => v.select ops p0 p1
  | ViewCall.selectAll => v.selectAll ops
  | ViewCall.drag p0 p1 => (v.drag ops p0 p1).2
  | ViewCall.initiate => v.initiate
  | ViewCall.terminate => v.terminate
  | ViewCall.grab s p0 p1 pk => (v.grab s p0 p1 pk).2

/-- The object after a sequence of calls, first call first. -/
def View.calls (ops : SceneOps Scene Node) (v : View Scene)
    (cs : List (ViewCall Source Node)) : View Scene :=
  cs.foldl (View.call ops) v

end ModelledView

/-! ### LayerView and TransitionView -/

/-- The state that `LayerView::setDepth` reads and writes: the depth of every Source in the layer
view, and the static flag `View::need_deep_update_`. -/
structure LayerView (Source : Type) where
  depth : Source → ℚ
  need_deep_update_ : Bool

/-- Modelled from the spec: `LayerView::setDepth(Source *, float d = -1.f)`, declared in `View.h`
and defined in `View.cpp`. Section 4.2: "sets or (if d is the sentinel -1) reads current depth;
must keep need_deep_update_ set whenever a depth change alters draw order". The returned value is
the depth of the Source after the call. -/
def LayerView.setDepth {Source : Type} [DecidableEq Source] (v : LayerView Source) (s : Source)
    (d : ℚ) : ℚ × LayerView Source :=
  if d = -1 then (v.depth s, v)
  else (d, { depth := Function.update v.depth s d, need_deep_update_ := true })

/-- A `SessionSource`, as far as `TransitionView` is concerned: the Session it was built from. -/
structure SessionSource (Session : Type) where
  session : Session

/-- The member `transition_source_` of a `TransitionView`; `none` is the null pointer. -/
structure TransitionView (Session : Type) where
  transition_source_ : Option (SessionSource Session)

/-- Modelled from the spec: `TransitionView::attach(SessionSource *ts)`, declared in `View.h` and
defined in `View.cpp`. Section 4.2: "adopts an external transition source for editing". -/
def TransitionView.attach {Session : Type} (_v : TransitionView Session)
    (ts : Option (SessionSource Session)) : TransitionView Session :=
  { transition_source_ := ts }

/-- Modelled from the spec: `TransitionView::detach()`, declared in `View.h` and defined in
`View.cpp`. Section 4.2: "relinquishes it and returns the owned Session reference (transfers
ownership back to the caller -- the View must not access it afterward)". -/
def TransitionView.detach {Session : Type} (v : TransitionView Session) :
    Option Session × TransitionView Session :=
  (v.transition_source_.map SessionSource.session, { transition_source_ := none })

/-! ## ObjLoader.cpp : strings and streams -/

/-- A `std::string`, or the contents of a character stream. -/
abbrev Str : Type := List Char

/-- The classification `isspace` of the "C" locale, which `operator>>` uses to skip and to
delimit. -/
def isspace (c : Char) : Bool :=
  c == ' ' || c == '\t' || c == '\n' || c == '\x0b' || c == '\x0c' || c == '\r'

/-- The extraction `iss >> word` of a `std::string` from a stream holding `s`: leading white space
is skipped, then characters are taken up to the next white space. The result is the extracted
word and what is left in the stream. When the stream is exhausted before a character is found the
extraction fails: the result is `none`, and the target string keeps its old value. -/
def extractWord (s : Str) : Option Str × Str :=
  match s.dropWhile isspace with
  | [] => (none, [])
  | c :: cs =>
    (some ((c :: cs).takeWhile (fun x => !isspace x)), (c :: cs).dropWhile (fun x => !isspace x))

/-- The scan of `getline`, with `k` the number of characters that may still be stored. -/
def getlineScan (delim : Char) : Nat → Str → Str × Str × Bool
  | _, [] => ([], [], false)
  | k, c :: cs =>
    if c = delim then ([], cs, true)
    else
      match k with
      | 0 => ([], c :: cs, false)
      | k + 1 =>
        let r := getlineScan delim k cs
        (c :: r.1, r.2.1, r.2.2)

/-- The call `is.getline(buffer, n, delim)` on a stream holding `s` that is `good()`: the
characters stored in `buffer`, what is left in the stream, and whether the stream is still
`good()`. Characters are stored until the end of the stream (`eofbit`), until the delimiter, which
is extracted and not stored, or until `n - 1` characters are stored and the next one is not the
delimiter (`failbit`). -/
def getline (n : Nat) (delim : Char) (s : Str) : Str × Str × Bool :=
  getlineScan delim (n - 1) s

/-- The conversion of a character buffer to a `std::string`, `string line(buffer)`: the characters
before the first NUL. -/
def cstring (buffer : Str) : Str :=
  buffer.takeWhile (fun c => c != '\x00')

/-- The loop `while (ifs.good()) { ifs.getline(buffer,512); string line(buffer); ... }`, with
`fuel` bounding the number of iterations: the lines handed to the body, in order. -/
def readLinesLoop : Nat → Str → List Str
  | 0, _ => []
  | fuel + 1, s =>
    let r := getline 512 '\n' s
    cstring r.1 :: (if r.2.2 then readLinesLoop fuel r.2.1 else [])

/-- The lines that the reading loop hands to its body. Every iteration but the last extracts a
newline, so `s.length + 1` iterations are enough. -/
def readLines (s : Str) : List Str :=
  readLinesLoop (s.length + 1) s

/-- The value of a run of decimal digits. -/
def digitsValue (ds : Str) : Nat :=
  (ds.takeWhile Char.isDigit).foldl (fun acc c => 10 * acc + (c.toNat - '0'.toNat)) 0

/-- The C library function `strtol(s, 0, 10)` with a 64-bit `long`: white space, an optional sign,
decimal digits; `0` when there is no digit; a value outside the range of `long` is replaced by
`LONG_MIN` or `LONG_MAX`. -/
def strtol (s : Str) : Int :=
  let value : Int :=
    match s.dropWhile isspace with
    | '-' :: ds => - (digitsValue ds : Int)
    | '+' :: ds => (digitsValue ds : Int)
    | ds => (digitsValue ds : Int)
  max (-9223372036854775808) (min value 9223372036854775807)

/-- The conversion of a `long` to a 32-bit `int`: the value modulo `2^32`, between `-2^31` and
`2^31 - 1`. -/
def toInt32 (v : Int) : Int :=
  (v + 2147483648) % 4294967296 - 2147483648

/-- The C library function `atoi`. A number that does not fit in an `int` is undefined behaviour
in the C standard; the embedding follows the C libraries that define `atoi(s)` as
`(int) strtol(s, 0, 10)`. -/
def atoi (s : Str) : Int :=
  toInt32 (strtol s)

/-- Whether `pat` is found at the start of `s`. -/
def startsWith : Str → Str → Bool
  | _, [] => true
  | [], _ :: _ => false
  | c :: cs, p :: ps => c == p && startsWith cs ps

/-- The member `std::string::rfind(char)`: the position of the last occurrence of `c`, `none` for
`npos`. -/
def rfind : Str → Char → Option Nat
  | [], _ => none
  | x :: xs, c =>
    match rfind xs c with
    | some i => some (i + 1)
    | none => if x = c then some 0 else none

/-- The member `std::string::substr(pos, len)`. -/
def substr (s : Str) (pos len : Nat) : Str :=
  (s.drop pos).take len

/-- The function `makeMtlFilename`. -/
def makeMtlFilename (mtlfile objfile : Str) : Str :=
  match rfind objfile '/' with
  | none => mtlfile
  | some pos =>
    let path := substr objfile 0 pos
    path ++ "/".toList ++ mtlfile

/-! ## ObjLoader.cpp : vertex references -/

/-- The struct `TriangleIndex`: a vertex, as indices into the arrays of positions, normals and
texture coordinates. -/
structure TriangleIndex where
  position : Int
  normal : Int
  uv : Int
deriving DecidableEq

/-- The member `TriangleIndex::replace(str, from, to)`: the string after the first occurrence of
`from` is replaced by `to`, and whether there was one. -/
def TriangleIndex.replace : Str → Str → Str → Str × Bool
  | [], pat, repl => if pat = [] then (repl, true) else ([], false)
  | c :: cs, pat, repl =>
    if startsWith (c :: cs) pat then (repl ++ (c :: cs).drop pat.length, true)
    else
      let r := TriangleIndex.replace cs pat repl
      (c :: r.1, r.2)

/-- The constructor `TriangleIndex(string p)`, reading `position/uv/normal`. -/
def TriangleIndex.ofString (p : Str) : TriangleIndex :=
  let p1 := (TriangleIndex.replace p "//".toList "/-1/".toList).1
  let r0 := getline 50 '/' p1
  let position := atoi (cstring r0.1)
  if r0.2.2 then
    let r1 := getline 50 '/' r0.2.1
    let uv := atoi (cstring r1.1)
    if r1.2.2 then
      let r2 := getline 50 '/' r1.2.1
      { position := position, normal := atoi (cstring r2.1), uv := uv }
    else { position := position, normal := -1, uv := uv }
  else { position := position, normal := -1, uv := -1 }

/-- The comparison `TriangleIndex::operator<`. -/
def TriangleIndex.lt (a b : TriangleIndex) : Bool :=
  decide (a.position < b.position) ||
    (decide (a.position = b.position) && decide (a.normal < b.normal)) ||
    (decide (a.position = b.position) && decide (a.normal = b.normal) && decide (a.uv < b.uv))

/-- The struct `TriangleString`; its constructor takes three strings and converts each with
`TriangleIndex(string)`. -/
structure TriangleString where
  v0 : TriangleIndex
  v1 : TriangleIndex
  v2 : TriangleIndex
deriving DecidableEq

/-- The constructor `TriangleString(string v0, string v1, string v2)`. -/
def TriangleString.ofStrings (v0 v1 v2 : Str) : TriangleString :=
  { v0 := TriangleIndex.ofString v0, v1 := TriangleIndex.ofString v1,
    v2 := TriangleIndex.ofString v2 }

/-- The member `TriangleString::get(int index)`. -/
def TriangleString.get (t : TriangleString) (index : Int) : TriangleIndex :=
  if index = 0 then t.v0 else if index = 1 then t.v1 else t.v2

/-! ## ObjLoader.cpp : loadObject -/

/-- The access `v[i]` to a `std::vector` with an index computed as an `int`; `none` when the
index is out of bounds, which is undefined behaviour. -/
def vectorAt {α : Type} (v : List α) (i : Int) : Option α :=
  if 0 ≤ i then v[i.toNat]? else none

/-- The loop `do { string index; iss >> index; if (index.length() > 0) polygon.push_back(index); }
while (iss);` with `fuel` bounding the number of iterations: the vector `polygon`. -/
def readPolygonLoop : Nat → Str → List Str
  | 0, _ => []
  | fuel + 1, s =>
    match extractWord s with
    | (some index, rest) =>
      (if index.length > 0 then [index] else []) ++ readPolygonLoop fuel rest
    | (none, _) => []

/-- The vector `polygon` read from the rest of a face line. Every iteration but the last extracts
a character, so `s.length + 1` iterations are enough. -/
def readPolygon (s : Str) : List Str :=
  readPolygonLoop (s.length + 1) s

/-- The triangles pushed for one face: `TriangleString(polygon[0], polygon[1], polygon[2])`, then
`TriangleString(polygon[i-1], polygon[i], polygon[0])` for `i` from `3` to `polygon.size() - 1`.
Only called on a polygon with at least three entries. -/
def triangulate (polygon : List Str) : List TriangleString :=
  TriangleString.ofStrings (polygon.getD 0 []) (polygon.getD 1 []) (polygon.getD 2 []) ::
    (List.range' 3 (polygon.length - 3)).map
      (fun i => TriangleString.ofStrings (polygon.getD (i - 1) []) (polygon.getD i [])
        (polygon.getD 0 []))

/-- The three vertices of a triangle in the order of the loop `for (int j=0;j<3;j++)`. -/
def TriangleString.corners (t : TriangleString) : List TriangleIndex :=
  [t.get 0, t.get 1, t.get 2]

/-- The vectors that `loadObject` fills while it reads the text, and the reference parameter
`outMtlfilename`. -/
structure ObjData (V3 V2 : Type) where
  positions : List V3
  normals : List V3
  uvs : List V2
  triangles : List TriangleString
  outMtlfilename : Str

/-- The output vectors of positions, normals and texture coordinates, and the map `cache` from
vertices already emitted to their index. The map is a list of its entries. -/
structure VertexOut (V3 V2 : Type) where
  outPositions : List V3
  outNormal : List V3
  outUv : List V2
  cache : List (TriangleIndex × Nat)

/-- The lookup `cache.find(index)`: the value stored under a key equivalent to `index` for
`operator<`, that is, a key `k` with neither `k < index` nor `index < k`. -/
def cacheFind (cache : List (TriangleIndex × Nat)) (index : TriangleIndex) : Option Nat :=
  (cache.find? (fun e => !(e.1.lt index) && !(index.lt e.1))).map Prod.snd

/-- What `loadObject` returns and leaves in its reference parameters. -/
structure ObjResult (V3 V2 : Type) where
  result : Bool
  outPositions : List V3
  outNormal : List V3
  outUv : List V2
  outIndices : List Nat
  outMtlfilename : Str
deriving DecidableEq

section Loader

variable {V3 V2 : Type}

/-- The body of the reading loop of `loadObject` for one line. The functions `toVec3` and `toVec2`
read the floating-point coordinates from the rest of the line. A face with fewer than three
vertex references makes the body read `polygon` out of bounds. -/
def loadObjectLine (toVec3 : Str → V3) (toVec2 : Str → V2) (d : ObjData V3 V2) (line : Str) :
    Option (ObjData V3 V2) :=
  let r := extractWord line
  let token := r.1.getD []
  let iss := r.2
  if token = "o".toList then some d
  else if token = "g".toList then some d
  else if token = "mtllib".toList then
    some { d with outMtlfilename := (extractWord iss).1.getD d.outMtlfilename }
  else if token = "usemtl".toList then some d
  else if token = "v".toList then some { d with positions := d.positions ++ [toVec3 iss] }
  else if token = "vn".toList then some { d with normals := d.normals ++ [toVec3 iss] }
  else if token = "vt".toList then some { d with uvs := d.uvs ++ [toVec2 iss] }
  else if token = "f".toList then
    let polygon := readPolygon iss
    if 3 ≤ polygon.length then some { d with triangles := d.triangles ++ triangulate polygon }
    else none
  else some d

/-- The body of the loop `for (int j=0;j<3;j++)` for the vertex `index`: the value pushed on the
index vector, and the output vectors and the cache afterwards. The assignment
`cache[index] = vertexIndex` is only reached when `find` found no equivalent key, so it adds an
entry. The size of `outPositions` is taken to fit in the `int vertexIndex`. -/
def emitVertex (positions normals : List V3) (uvs : List V2) (o : VertexOut V3 V2)
    (index : TriangleIndex) : Option (Nat × VertexOut V3 V2) :=
  match cacheFind o.cache index with
  | some cachedIndex => some (cachedIndex, o)
  | none =>
    let vertexIndex := o.outPositions.length
    match vectorAt positions (index.position - 1) with
    | none => none
    | some p =>
      match (if index.normal ≠ -1 then
          (vectorAt normals (index.normal - 1)).map (fun n => o.outNormal ++ [n])
        else some o.outNormal) with
      | none => none
      | some outNormal =>
        match (if index.uv ≠ -1 then
            (vectorAt uvs (index.uv - 1)).map (fun t => o.outUv ++ [t])
          else some o.outUv) with
        | none => none
        | some outUv =>
          some (vertexIndex,
            { outPositions := o.outPositions ++ [p], outNormal := outNormal, outUv := outUv,
              cache := (index, vertexIndex) :: o.cache })

/-- The packing loop over the vertices of the triangles, in order: the output vectors and cache,
and the index vector, afterwards. -/
def emitVertices (positions normals : List V3) (uvs : List V2) :
    VertexOut V3 V2 → List Nat → List TriangleIndex → Option (VertexOut V3 V2 × List Nat)
  | o, indices, [] => some (o, indices)
  | o, indices, index :: rest =>
    match emitVertex positions normals uvs o index with
    | none => none
    | some r => emitVertices positions normals uvs r.2 (indices ++ [r.1]) rest

/-- The function `loadObject`. The arguments after `objText` are the values of the reference
parameters at the call. The result is `none` when the run reads a vector out of bounds. -/
def loadObject (toVec3 : Str → V3) (toVec2 : Str → V2) (objText : Str)
    (outPositions outNormal : List V3) (outUv : List V2) (outIndices : List Nat)
    (outMtlfilename : Str) : Option (ObjResult V3 V2) :=
  match (readLines objText).foldlM (loadObjectLine toVec3 toVec2)
      { positions := [], normals := [], uvs := [], triangles := [],
        outMtlfilename := outMtlfilename } with
  | none => none
  | some d =>
    match emitVertices d.positions d.normals d.uvs
        { outPositions := outPositions, outNormal := outNormal, outUv := outUv, cache := [] }
        outIndices (d.triangles.flatMap TriangleString.corners) with
    | none => none
    | some r =>
      some { result := decide (r.1.outPositions.length > 0), outPositions := r.1.outPositions,
             outNormal := r.1.outNormal, outUv := r.1.outUv, outIndices := r.2,
             outMtlfilename := d.outMtlfilename }

end Loader

/-! ## ObjLoader.cpp : loadObjectGroups -/

/-- The order `operator<` of `std::string`, which orders the keys of a `std::map<string, T>`. -/
def strLt : Str → Str → Bool
  | [], [] => false
  | [], _ :: _ => true
  | _ :: _, [] => false
  | a :: as, b :: bs => decide (a.toNat < b.toNat) || (a.toNat == b.toNat && strLt as bs)

/-- The lookup of a key in a `std::map<string, T>`, held as the list of its entries in key
order. -/
def mapFind {β : Type} (m : List (Str × β)) (key : Str) : Option β :=
  (m.find? (fun e => e.1 == key)).map Prod.snd

/-- The assignment `m[key] = value` on a `std::map<string, T>`: the entry is replaced when the key
is present and inserted at its place in key order otherwise. -/
def mapSet {β : Type} : List (Str × β) → Str → β → List (Str × β)
  | [], key, value => [(key, value)]
  | e :: rest, key, value =>
    if strLt key e.1 then (key, value) :: e :: rest
    else if strLt e.1 key then e :: mapSet rest key value
    else (e.1, value) :: rest

/-- A pointer to a `Material` allocated with `new Material`. The objects allocated during a run
are numbered from 1; `0` is the null pointer. -/
abbrev MaterialPtr : Type := Nat

/-- The struct `Group`. The member `mat` has no initialiser: it is `none` until it is assigned. -/
structure Group where
  triangles : List TriangleString
  mat : Option MaterialPtr
deriving DecidableEq

/-- The text written by `oss << "dummy" << groupnum`. -/
def dummyName (groupnum : Nat) : Str :=
  "dummy".toList ++ (Nat.repr groupnum).toList

/-- The variables of `loadObjectGroups` while it reads the file: the local maps and vectors, the
current group name, the static counter `groupnum`, the number of `Material` objects allocated so
far, and the reference parameter `outMaterials`. -/
structure GroupsData (V3 V2 : Type) where
  materials : List (Str × MaterialPtr)
  positions : List V3
  normals : List V3
  uvs : List V2
  groups : List (Str × Group)
  currentGroupName : Str
  groupnum : Nat
  allocated : Nat
  outMaterials : List MaterialPtr

/-- What `loadObjectGroups` returns and leaves in its reference parameters and in the static
counter `groupnum`, together with the map `groups` as it is when the file has been read. -/
structure GroupsResult (V3 V2 : Type) where
  result : Bool
  outPositions : List V3
  outNormal : List V3
  outUv : List V2
  outIndices : List (List Nat)
  outMaterials : List MaterialPtr
  groupnum : Nat
  groups : List (Str × Group)
deriving DecidableEq

section GroupLoader

variable {V3 V2 : Type}

/-- The statements `oss << "dummy" << groupnum++; currentGroupName=oss.str();
groups[currentGroupName] = new Group;`. -/
def newDummyGroup (d : GroupsData V3 V2) : GroupsData V3 V2 :=
  { d with currentGroupName := dummyName d.groupnum,
           groupnum := d.groupnum + 1,
           groups := mapSet d.groups (dummyName d.groupnum) { triangles := [], mat := none } }

/-- The branch of the reading loop of `loadObjectGroups` for a `usemtl` line, with `iss` the rest
of the line. The output on `std::cout` is left out. -/
def usemtlLine (d : GroupsData V3 V2) (iss : Str) : Option (GroupsData V3 V2) :=
  match (if d.currentGroupName = [] then some true
      else (mapFind d.groups d.currentGroupName).map (fun g => decide (g.triangles.length ≠ 0))) with
  | none => none
  | some create =>
    let d1 := if create then newDummyGroup d else d
    let token0 := (extractWord iss).1.getD "usemtl".toList
    let token := if token0 = "usemtl".toList then "dummy1".toList else token0
    let known := (mapFind d1.materials token).getD 0
    let material := if known = 0 then d1.allocated + 1 else known
    let d2 := if known = 0 then
        { d1 with materials := mapSet d1.materials token material, allocated := d1.allocated + 1 }
      else d1
    match mapFind d2.groups d2.currentGroupName with
    | none => none
    | some g =>
      some { d2 with groups := mapSet d2.groups d2.currentGroupName { g with mat := some material },
                     outMaterials := d2.outMaterials ++ [material] }

/-- The branch of the reading loop of `loadObjectGroups` for a face line, with `iss` the rest of
the line. -/
def faceLine (d : GroupsData V3 V2) (iss : Str) : Option (GroupsData V3 V2) :=
  let polygon := readPolygon iss
  let d1 := if d.currentGroupName = [] then
      let d0 := newDummyGroup d
      { d0 with groups := mapSet d0.groups d0.currentGroupName
                  { triangles := [], mat := some (d0.allocated + 1) },
                allocated := d0.allocated + 1,
                outMaterials := d0.outMaterials ++ [d0.allocated + 1] }
    else d
  if 3 ≤ polygon.length then
    match mapFind d1.groups d1.currentGroupName with
    | none => none
    | some g =>
      some { d1 with groups := mapSet d1.groups d1.currentGroupName
                       { g with triangles := g.triangles ++ triangulate polygon } }
  else some d1

/-- The body of the reading loop of `loadObjectGroups` for one line. -/
def loadObjectGroupsLine (toVec3 : Str → V3) (toVec2 : Str → V2) (d : GroupsData V3 V2)
    (line : Str) : Option (GroupsData V3 V2) :=
  let r := extractWord line
  let token := r.1.getD []
  let iss := r.2
  if token = "o".toList then some d
  else if token = "g".toList then
    let name := (extractWord iss).1.getD d.currentGroupName
    some { d with currentGroupName := name,
                  groups := mapSet d.groups name { triangles := [], mat := none } }
  else if token = "mtllib".toList then some d
  else if token = "usemtl".toList then usemtlLine d iss
  else if token = "v".toList then some { d with positions := d.positions ++ [toVec3 iss] }
  else if token = "vn".toList then some { d with normals := d.normals ++ [toVec3 iss] }
  else if token = "vt".toList then some { d with uvs := d.uvs ++ [toVec2 iss] }
  else if token = "f".toList then faceLine d iss
  else some d

/-- The packing loop of `loadObjectGroups` over the groups in the order of the map: every group
gets its own index vector, which is pushed on `outIndices`; the output vectors and the cache are
shared. -/
def packGroups (positions normals : List V3) (uvs : List V2) :
    VertexOut V3 V2 → List (List Nat) → List (Str × Group) →
      Option (VertexOut V3 V2 × List (List Nat))
  | o, outIndices, [] => some (o, outIndices)
  | o, outIndices, g :: rest =>
    match emitVertices positions normals uvs o []
        (g.2.triangles.flatMap TriangleString.corners) with
    | none => none
    | some r => packGroups positions normals uvs r.1 (outIndices ++ [r.2]) rest

/-- The function `loadObjectGroups`. The argument `file` is the content of the file named
`filename`, `none` when it cannot be opened; `groupnum` is the value of the static counter at the
call; the other arguments are the values of the reference parameters at the call. The result is
`none` when the run reads a vector out of bounds or dereferences a null pointer. -/
def loadObjectGroups (toVec3 : Str → V3) (toVec2 : Str → V2) (file : Option Str) (groupnum : Nat)
    (outPositions outNormal : List V3) (outUv : List V2) (outIndices : List (List Nat))
    (outMaterials : List MaterialPtr) : Option (GroupsResult V3 V2) :=
  let lines := match file with
    | none => []
    | some text => readLines text
  match lines.foldlM (loadObjectGroupsLine toVec3 toVec2)
      { materials := [], positions := [], normals := [], uvs := [], groups := [],
        currentGroupName := [], groupnum := groupnum, allocated := 0,
        outMaterials := outMaterials } with
  | none => none
  | some d =>
    match packGroups d.positions d.normals d.uvs
        { outPositions := outPositions, outNormal := outNormal, outUv := outUv, cache := [] }
        outIndices d.groups with
    | none => none
    | some r =>
      some { result := true, outPositions := r.1.outPositions, outNormal := r.1.outNormal,
             outUv := r.1.outUv, outIndices := r.2, outMaterials := d.outMaterials,
             groupnum := d.groupnum, groups := d.groups }

end GroupLoader

/-! ## Reading an OBJ text as a specification

The lines of a text, the vertex data it declares and the vertices its faces reference, described
on the text itself. -/

/-- The lines of a text: the pieces between newline characters, each read as a C string. -/
def textLines (text : Str) : List Str :=
  (text.splitOn '\n').map cstring

/-- The first word of a line, empty when the line has none. -/
def lineToken (line : Str) : Str :=
  (extractWord line).1.getD []

/-- The line after its first word. -/
def lineRest (line : Str) : Str :=
  (extractWord line).2

/-- The lines of a text whose first word is `token`, in order. -/
def linesWith (token : Str) (text : Str) : List Str :=
  (textLines text).filter (fun l => lineToken l == token)

/-- The positions given by the `v` lines of a text, in order. -/
def vPositions {V3 : Type} (toVec3 : Str → V3) (text : Str) : List V3 :=
  (linesWith "v".toList text).map (fun l => toVec3 (lineRest l))

/-- The vertex references of a face line. -/
def faceRefs (line : Str) : List Str :=
  readPolygon (lineRest line)

/-- The triangles of the faces of a text, in order. -/
def faceTriangles (text : Str) : List TriangleString :=
  (linesWith "f".toList text).flatMap (fun l => triangulate (faceRefs l))

/-- The vertices of the triangles of a text, in the order in which they are emitted. -/
def cornerRefs (text : Str) : List TriangleIndex :=
  (faceTriangles text).flatMap TriangleString.corners

/-- An OBJ text with one triangle. -/
def objTriangle : Str :=
  "v 0 0 0\nv 1 0 0\nv 0 1 0\nf 1 2 3".toList

/-- An OBJ text with a face that references a normal although the text has no `vn` line. -/
def objMissingNormal : Str :=
  "v 0 0 0\nf 1//1 1//1 1//1".toList

/-- An OBJ file with two groups, `b` before `a`, each with its own material. -/
def objTwoGroups : Str :=
  "v 0 0 0\nv 1 0 0\nv 0 1 0\ng b\nusemtl red\nf 1 2 3\ng a\nusemtl blue\nf 3 2 1\n".toList

/-- An OBJ file with one group and no `usemtl` line. -/
def objGroupWithoutMaterial : Str :=
  "v 0 0 0\ng a\nf 1 1 1\n".toList

section PackingInvariant

variable {V3 : Type}

/-- The output position at index `i` is the position that the vertex `c` references. -/
def RefersTo (positions outPositions : List V3) (i : Nat) (c : TriangleIndex) : Prop :=
  ∃ p, outPositions[i]? = some p ∧ vectorAt positions (c.position - 1) = some p

/-- The references of a vertex are within vectors of `np` positions, `nn` normals and `nt` texture
coordinates; a normal or texture reference may also be absent, which is written -1. -/
def ValidRef (np nn nt : Nat) (c : TriangleIndex) : Prop :=
  (1 ≤ c.position ∧ c.position ≤ np) ∧ (c.normal = -1 ∨ (1 ≤ c.normal ∧ c.normal ≤ nn)) ∧
    (c.uv = -1 ∨ (1 ≤ c.uv ∧ c.uv ≤ nt))

end PackingInvariant

/-! ## The fan of a face and the order of first use, as a specification -/

/-- An OBJ text with a comment line of 512 characters before its only face. -/
def objLongLine : Str :=
  "v 0 0 0\n".toList ++ List.replicate 512 '#' ++ "\nf 1 1 1".toList

/-- The distinct vertices met while going through a list from left to right, after the ones in
`seen`: a vertex that has not been met yet is added at the end. -/
def firstUsesFrom (seen : List TriangleIndex) : List TriangleIndex → List TriangleIndex
  | [] => seen
  | c :: cs => firstUsesFrom (if c ∈ seen then seen else seen ++ [c]) cs

/-- The distinct vertices of a list in the order of their first use. -/
def firstUses (cs : List TriangleIndex) : List TriangleIndex :=
  firstUsesFrom [] cs

/-- The cache maps the vertices of `seen`, and no others, to their place in `seen`. -/
def CacheIs (cache : List (TriangleIndex × Nat)) (seen : List TriangleIndex) : Prop :=
  ∀ c : TriangleIndex, cacheFind cache c = if c ∈ seen then some (seen.indexOf c) else none

/-- An OBJ text with two triangles that share an edge. -/
def objTwoTriangles : Str :=
  "v 0 0 0\nv 1 0 0\nv 0 1 0\nv 1 1 0\nf 1 2 3\nf 3 2 4".toList

/-! ## The groups of `loadObjectGroups`, as a specification -/

/-- The keys of a `std::map<string, T>` are in increasing order. -/
def KeysSorted {β : Type} (m : List (Str × β)) : Prop :=
  m.Pairwise (fun a b => strLt a.1 b.1 = true)

/-- The value of a string of decimal digits in positional notation. -/
def decimalValue : Str → Nat
  | [] => 0
  | c :: cs => (c.toNat - '0'.toNat) * 10 ^ cs.length + decimalValue cs

/-- The string `s` is a decimal numeral of the integer `v`: at least one decimal digit, after an
optional sign. -/
def IsDecimal (s : Str) (v : Int) : Prop :=
  ∃ ds : Str, ds ≠ [] ∧ (∀ c ∈ ds, c.isDigit = true) ∧
    ((s = ds ∧ v = (decimalValue ds : Int)) ∨
      (s = '-' :: ds ∧ v = - (decimalValue ds : Int)) ∨
      (s = '+' :: ds ∧ v = (decimalValue ds : Int)))

/-- The integer `v` fits in a 32-bit `int`. -/
def FitsInt (v : Int) : Prop :=
  -2147483648 ≤ v ∧ v ≤ 2147483647

/-! ## Properties of the views -/

section ViewProperties

variable {Scene Source Node Session : Type}

/-- One call of a member with an empty body leaves the object as it is. -/
theorem View.cameraCall_eq (v : View Scene) (c : CameraCall Source) : v.cameraCall c = v := by
  cases c <;> rfl

/-- No operation of the base class writes `mode_`. -/
theorem View.call_mode (ops : SceneOps Scene Node) (v : View Scene)
    (c : ViewCall Source Node) : (v.call ops c).mode = v.mode := by
  cases c <;> rfl

/-- C1. For every base View and all arguments, `grab` returns the default Cursor: its type is
`Cursor_Arrow`, its info is the empty string, and it equals a default-constructed Cursor. -/
theorem View.grab_returns_default_cursor (v : View Scene) (s : Option Source) (p0 p1 : vec2)
    (pick : Option Node × vec2) :
    (v.grab s p0 p1 pick).1 = Cursor.default ∧
      (v.grab s p0 p1 pick).1.type = CursorType.Cursor_Arrow ∧
      (v.grab s p0 p1 pick).1.info = "" :=
  ⟨rfl, rfl, rfl⟩

/-- C2. The mode of a View is fixed at construction: after any sequence of the operations
`update`, `draw`, `zoom`, `resize`, `size`, `recenter`, `centerSource`, `pick`, `select`,
`selectAll`, `drag`, `initiate`, `terminate`, `grab` on a View constructed with mode `m`, `mode()`
returns `m`. -/
theorem View.mode_fixed_at_construction (ops : SceneOps Scene Node) (m : Mode) (scene : Scene)
    (action : String) (id : Nat) (cs : List (ViewCall Source Node)) :
    ((View.new m scene action id).calls ops cs).mode = m := by
  have key : ∀ (l : List (ViewCall Source Node)) (v : View Scene),
      (v.calls ops l).mode = v.mode := by
    intro l
    induction l with
    | nil => intro v; rfl
    | cons c l ih =>
      intro v
      show ((v.call ops c).calls ops l).mode = v.mode
      rw [ih, View.call_mode]
  rw [key]
  rfl

/-- C3. On a base View `zoom`, `resize` and `centerSource` do nothing, whatever their argument:
any sequence of such calls and of `size` leaves `mode_`, `current_action_`, `current_id_` and the
scene as they were, and `size()` returns 0 before and after the sequence. -/
theorem View.zoom_resize_centerSource_noop (v : View Scene) (calls : List (CameraCall Source)) :
    (v.cameraCalls calls).mode_ = v.mode_ ∧
      (v.cameraCalls calls).current_action_ = v.current_action_ ∧
      (v.cameraCalls calls).current_id_ = v.current_id_ ∧
      (v.cameraCalls calls).scene = v.scene ∧
      v.size.1 = 0 ∧ (v.cameraCalls calls).size.1 = 0 := by
  have key : v.cameraCalls calls = v := by
    induction calls with
    | nil => rfl
    | cons c l ih =>
      show (v.cameraCall c).cameraCalls l = v
      rw [View.cameraCall_eq]
      exact ih
  rw [key]
  exact ⟨rfl, rfl, rfl, rfl, rfl, rfl⟩

/-- C7. Depth round trip of the LayerView: for every Source `s` and every depth `d` other than the
sentinel -1, after `setDepth(s, d)` the call `setDepth(s, -1)` returns `d` and changes nothing,
and `need_deep_update_` is true after the first call. -/
theorem LayerView.setDepth_then_read [DecidableEq Source] (v : LayerView Source) (s : Source)
    (d : ℚ) (hd : d ≠ -1) :
    ((v.setDepth s d).2.setDepth s (-1)).1 = d ∧
      ((v.setDepth s d).2.setDepth s (-1)).2 = (v.setDepth s d).2 ∧
      (v.setDepth s d).2.need_deep_update_ = true := by
  simp [LayerView.setDepth, hd]

/-- C7, on the scenario of the specification: `setDepth(S, 3.0)` then `setDepth(S, -1.0)`. -/
theorem LayerView.setDepth_then_read_witness :
    (3 : ℚ) ≠ -1 ∧
      ((((LayerView.mk (fun _ : Nat => 0) false).setDepth 7 3).2.setDepth 7 (-1)).1 = 3 ∧
        (((LayerView.mk (fun _ : Nat => 0) false).setDepth 7 3).2.setDepth 7 (-1)).2 =
          ((LayerView.mk (fun _ : Nat => 0) false).setDepth 7 3).2 ∧
        ((LayerView.mk (fun _ : Nat => 0) false).setDepth 7 3).2.need_deep_update_ = true) :=
  ⟨by decide, LayerView.setDepth_then_read (LayerView.mk (fun _ : Nat => 0) false) 7 3 (by decide)⟩

/-- C8. Attach and detach of the TransitionView: for every SessionSource `ts`, `attach(ts)`
followed by `detach()` returns the session that `ts` was built from, and afterwards
`transition_source_` is null. -/
theorem TransitionView.detach_after_attach (v : TransitionView Session)
    (ts : SessionSource Session) :
    ((v.attach (some ts)).detach).1 = some ts.session ∧
      ((v.attach (some ts)).detach).2.transition_source_ = none :=
  ⟨rfl, rfl⟩

/-- C9. Gesture bracket: for every View, `initiate()` immediately followed by `terminate()` leaves
the scene, and the rest of the View, unchanged. -/
theorem View.initiate_terminate_unchanged (v : View Scene) :
    v.initiate.terminate.scene = v.scene ∧ v.initiate.terminate = v :=
  ⟨rfl, rfl⟩

end ViewProperties

/-! ## Properties of the OBJ importer -/

/-- The search `rfind` finds nothing when the character does not occur. -/
theorem rfind_eq_none (s : Str) (c : Char) (h : c ∉ s) : rfind s c = none := by
  induction s with
  | nil => rfl
  | cons x xs ih =>
    have hx : ¬ x = c := fun e => h (by simp [e])
    have hxs : c ∉ xs := fun m => h (List.mem_cons_of_mem _ m)
    simp [rfind, ih hxs, hx]

/-- The search `rfind` returns the position of the last occurrence. -/
theorem rfind_last (pre post : Str) (c : Char) (h : c ∉ post) :
    rfind (pre ++ c :: post) c = some pre.length := by
  induction pre with
  | nil => simp [rfind, rfind_eq_none post c h]
  | cons x xs ih => simp [rfind, ih]

/-- C5. `makeMtlFilename(mtlfile, objfile)` tacks the directory of `objfile` onto `mtlfile`: when
`objfile` contains no '/', the result is `mtlfile`; otherwise it is the part of `objfile` before
its last '/', followed by "/", followed by `mtlfile`. -/
theorem makeMtlFilename_spec (mtlfile objfile : Str) :
    ('/' ∉ objfile → makeMtlFilename mtlfile objfile = mtlfile) ∧
      (∀ dir file : Str, objfile = dir ++ '/' :: file → '/' ∉ file →
        makeMtlFilename mtlfile objfile = dir ++ "/".toList ++ mtlfile) := by
  constructor
  · intro h
    simp [makeMtlFilename, rfind_eq_none objfile '/' h]
  · intro dir file hobj hfile
    subst hobj
    simp [makeMtlFilename, rfind_last dir file '/' hfile, substr]

/-- C5, on `makeMtlFilename("a.mtl", "dir/sub/x.obj")` and `makeMtlFilename("a.mtl", "x.obj")`. -/
theorem makeMtlFilename_spec_witness :
    makeMtlFilename "a.mtl".toList "dir/sub/x.obj".toList = "dir/sub/a.mtl".toList ∧
      makeMtlFilename "a.mtl".toList "x.obj".toList = "a.mtl".toList :=
  ⟨(makeMtlFilename_spec "a.mtl".toList "dir/sub/x.obj".toList).2 "dir/sub".toList "x.obj".toList
      (by decide) (by decide),
    (makeMtlFilename_spec "a.mtl".toList "x.obj".toList).1 (by decide)⟩

/-- C4, evaluated. On a file with the groups `b` and `a`, in this order, `outIndices` follows the
order of the map (`a`, then `b`) while `outMaterials` follows the order of the `usemtl` lines:
`outMaterials[0]` is the material of `b`, and `outIndices[0]` are the indices of `a`. On a file
with one group and no `usemtl` line, `outIndices` has one entry and `outMaterials` has none. -/
theorem loadObjectGroups_outMaterials_not_per_group :
    (loadObjectGroups id id (some objTwoGroups) 1 [] [] [] [] []).map
        (fun r => (r.outIndices, r.outMaterials, r.groups.map (fun g => (g.1, g.2.mat)))) =
      some ([[0, 1, 2], [2, 1, 0]], [1, 2], [("a".toList, some 2), ("b".toList, some 1)]) ∧
    (loadObjectGroups id id (some objGroupWithoutMaterial) 1 [] [] [] [] []).map
        (fun r => (r.outIndices, r.outMaterials, r.groups.map (fun g => (g.1, g.2.mat)))) =
      some ([[0, 0, 0]], [], [("a".toList, none)]) := by
  constructor <;> decide

section Fuel

/-- Dropping a prefix does not lengthen a list. -/
theorem dropWhile_length_le {α : Type} (p : α → Bool) (l : List α) :
    (l.dropWhile p).length ≤ l.length := by
  induction l with
  | nil => simp
  | cons a l ih =>
    rw [List.dropWhile_cons]
    split
    · simp; omega
    · simp

/-- What is left after `dropWhile p` does not start with an element satisfying `p`. -/
theorem dropWhile_head_false {α : Type} (p : α → Bool) (l : List α) (c : α) (cs : List α)
    (h : l.dropWhile p = c :: cs) : p c = false := by
  induction l with
  | nil => simp at h
  | cons a l ih =>
    rw [List.dropWhile_cons] at h
    by_cases ha : p a = true
    · rw [if_pos ha] at h
      exact ih h
    · rw [if_neg ha] at h
      obtain ⟨h1, _⟩ := List.cons.inj h
      subst h1
      simpa using ha

/-- A successful extraction of a word shortens the stream. -/
theorem extractWord_rest_length (s : Str) (w rest : Str) (h : extractWord s = (some w, rest)) :
    rest.length < s.length := by
  unfold extractWord at h
  cases hs : s.dropWhile isspace with
  | nil => rw [hs] at h; simp at h
  | cons c cs =>
    rw [hs] at h
    simp only [Prod.mk.injEq, Option.some.injEq] at h
    have hc : isspace c = false := dropWhile_head_false isspace s c cs hs
    have hle := dropWhile_length_le isspace s
    rw [hs] at hle
    rw [← h.2, List.dropWhile_cons_of_pos (by simp [hc])]
    have := dropWhile_length_le (fun x => !isspace x) cs
    simp only [List.length_cons] at hle
    omega

/-- The loop that reads a face runs to its end within any number of iterations larger than the
length of the stream. -/
theorem readPolygonLoop_fuel (f1 : Nat) : ∀ (f2 : Nat) (s : Str), s.length < f1 → s.length < f2 →
    readPolygonLoop f1 s = readPolygonLoop f2 s := by
  induction f1 with
  | zero => intro f2 s h; omega
  | succ f1 ih =>
    intro f2 s h1 h2
    cases f2 with
    | zero => omega
    | succ f2 =>
      unfold readPolygonLoop
      cases he : extractWord s with
      | mk w rest =>
        cases w with
        | none => rfl
        | some w =>
          have := extractWord_rest_length s w rest he
          simp only
          rw [ih f2 rest (by omega) (by omega)]

/-- A `getline` that leaves the stream good has extracted a delimiter. -/
theorem getlineScan_rest_length (delim : Char) (s : Str) : ∀ k : Nat,
    (getlineScan delim k s).2.2 = true → (getlineScan delim k s).2.1.length < s.length := by
  induction s with
  | nil => intro k h; simp [getlineScan] at h
  | cons c cs ih =>
    intro k h
    by_cases hc : c = delim
    · cases k <;> simp [getlineScan, hc]
    · cases k with
      | zero => simp [getlineScan, hc] at h
      | succ k =>
        simp only [getlineScan, if_neg hc] at h ⊢
        have := ih k h
        simp only [List.length_cons]
        omega

/-- The reading loop runs to its end within any number of iterations larger than the length of
the text. -/
theorem readLinesLoop_fuel (f1 : Nat) : ∀ (f2 : Nat) (s : Str), s.length < f1 → s.length < f2 →
    readLinesLoop f1 s = readLinesLoop f2 s := by
  induction f1 with
  | zero => intro f2 s h; omega
  | succ f1 ih =>
    intro f2 s h1 h2
    cases f2 with
    | zero => omega
    | succ f2 =>
      unfold readLinesLoop
      by_cases hg : (getline 512 '\n' s).2.2 = true
      · have hlt : (getline 512 '\n' s).2.1.length < s.length :=
          getlineScan_rest_length '\n' s 511 hg
        simp only [hg, if_true]
        rw [ih f2 (getline 512 '\n' s).2.1 (by omega) (by omega)]
      · simp [hg]

end Fuel

section Packing

variable {V3 V2 : Type}

/-- Two vertices that `operator<` orders in neither direction have the same three fields. -/
theorem TriangleIndex.eq_of_not_lt (a b : TriangleIndex) (h1 : a.lt b = false)
    (h2 : b.lt a = false) : a = b := by
  cases a; cases b
  simp [TriangleIndex.lt] at h1 h2 ⊢
  omega

/-- An index between 1 and the size of the vector, taken from 1, is within bounds. -/
theorem vectorAt_valid {α : Type} (v : List α) (n : Int) (h1 : 1 ≤ n) (h2 : n ≤ v.length) :
    ∃ x, vectorAt v (n - 1) = some x := by
  have hlt : (n - 1).toNat < v.length := by omega
  refine ⟨v[(n - 1).toNat], ?_⟩
  unfold vectorAt
  rw [if_pos (by omega)]
  exact List.getElem?_eq_getElem hlt

/-- Pushing on `outPositions` keeps the positions already emitted in place. -/
theorem RefersTo.append {positions outPositions : List V3} {i : Nat} {c : TriangleIndex}
    (h : RefersTo positions outPositions i c) (ext : List V3) :
    RefersTo positions (outPositions ++ ext) i c := by
  obtain ⟨p, hp, hq⟩ := h
  refine ⟨p, ?_, hq⟩
  have hi : i < outPositions.length := by
    by_contra hcon
    rw [List.getElem?_eq_none (by omega)] at hp
    exact Option.noConfusion hp
  rw [List.getElem?_append_left hi]
  exact hp

/-- A successful lookup in the cache returns the value of an entry for the vertex itself. -/
theorem cacheFind_some {cache : List (TriangleIndex × Nat)} {c : TriangleIndex} {v : Nat}
    (h : cacheFind cache c = some v) : (c, v) ∈ cache := by
  unfold cacheFind at h
  cases hf : cache.find? (fun e => !(e.1.lt c) && !(c.lt e.1)) with
  | none => rw [hf] at h; exact Option.noConfusion h
  | some e =>
    rw [hf] at h
    have hv : e.2 = v := by simpa using h
    have hp := List.find?_some hf
    have hm := List.mem_of_find?_eq_some hf
    simp only [Bool.and_eq_true, Bool.not_eq_true'] at hp
    have he : e.1 = c := TriangleIndex.eq_of_not_lt e.1 c hp.1 hp.2
    have : e = (c, v) := by rw [← he, ← hv]
    rw [← this]
    exact hm

/-- One step of the packing loop on a vertex with valid references: it completes, it only pushes
on `outPositions`, the index it returns holds the position that the vertex references, and the
cache stays sound. -/
theorem emitVertex_spec (positions normals : List V3) (uvs : List V2) (o : VertexOut V3 V2)
    (c : TriangleIndex) (hv : ValidRef positions.length normals.length uvs.length c)
    (hc : ∀ e ∈ o.cache, RefersTo positions o.outPositions e.2 e.1) :
    ∃ r, emitVertex positions normals uvs o c = some r ∧
      (∃ ext, r.2.outPositions = o.outPositions ++ ext) ∧
      RefersTo positions r.2.outPositions r.1 c ∧
      (∀ e ∈ r.2.cache, RefersTo positions r.2.outPositions e.2 e.1) := by
  obtain ⟨⟨hp1, hp2⟩, hn, ht⟩ := hv
  unfold emitVertex
  cases hf : cacheFind o.cache c with
  | some v =>
    refine ⟨(v, o), rfl, ⟨[], by simp⟩, hc (c, v) (cacheFind_some hf), hc⟩
  | none =>
    obtain ⟨p, hp⟩ := vectorAt_valid positions c.position hp1 hp2
    have hN : ∃ outNormal, (if c.normal ≠ -1 then
          (vectorAt normals (c.normal - 1)).map (fun n => o.outNormal ++ [n])
        else some o.outNormal) = some outNormal := by
      rcases hn with h | ⟨h1, h2⟩
      · exact ⟨o.outNormal, by simp [h]⟩
      · obtain ⟨n, hn⟩ := vectorAt_valid normals c.normal h1 h2
        by_cases hneg : c.normal = -1
        · exact ⟨o.outNormal, by simp [hneg]⟩
        · exact ⟨o.outNormal ++ [n], by simp [hneg, hn]⟩
    have hT : ∃ outUv, (if c.uv ≠ -1 then
          (vectorAt uvs (c.uv - 1)).map (fun t => o.outUv ++ [t])
        else some o.outUv) = some outUv := by
      rcases ht with h | ⟨h1, h2⟩
      · exact ⟨o.outUv, by simp [h]⟩
      · obtain ⟨t, ht⟩ := vectorAt_valid uvs c.uv h1 h2
        by_cases hneg : c.uv = -1
        · exact ⟨o.outUv, by simp [hneg]⟩
        · exact ⟨o.outUv ++ [t], by simp [hneg, ht]⟩
    obtain ⟨outNormal, hN⟩ := hN
    obtain ⟨outUv, hT⟩ := hT
    simp only [hp, hN, hT]
    refine ⟨_, rfl, ⟨[p], rfl⟩, ⟨p, by simp, hp⟩, ?_⟩
    intro e he
    rcases List.mem_cons.mp he with h | h
    · subst h
      exact ⟨p, by simp, hp⟩
    · exact (hc e h).append [p]

/-- The packing loop on vertices with valid references: it completes, and every index it pushes
holds the position that the corresponding vertex references. -/
theorem emitVertices_spec (positions normals : List V3) (uvs : List V2)
    (cs : List TriangleIndex)
    (hv : ∀ c ∈ cs, ValidRef positions.length normals.length uvs.length c) :
    ∀ (o : VertexOut V3 V2) (indices : List Nat) (done : List TriangleIndex),
      (∀ e ∈ o.cache, RefersTo positions o.outPositions e.2 e.1) →
      List.Forall₂ (RefersTo positions o.outPositions) indices done →
      ∃ r, emitVertices positions normals uvs o indices cs = some r ∧
        List.Forall₂ (RefersTo positions r.1.outPositions) r.2 (done ++ cs) := by
  induction cs with
  | nil =>
    intro o indices done _ hdone
    exact ⟨(o, indices), rfl, by simpa using hdone⟩
  | cons c rest ih =>
    intro o indices done hc hdone
    obtain ⟨r, hr, ⟨ext, hext⟩, href, hcache⟩ :=
      emitVertex_spec positions normals uvs o c (hv c (List.mem_cons_self c rest)) hc
    have hdone1 : List.Forall₂ (RefersTo positions r.2.outPositions) (indices ++ [r.1])
        (done ++ [c]) := by
      refine List.rel_append ?_ (List.Forall₂.cons href List.Forall₂.nil)
      rw [hext]
      exact hdone.imp (fun _ _ h => h.append ext)
    obtain ⟨r2, hr2, hfin⟩ := ih (fun x hx => hv x (List.mem_cons_of_mem c hx)) r.2
      (indices ++ [r.1]) (done ++ [c]) hcache hdone1
    refine ⟨r2, ?_, by simpa using hfin⟩
    simp only [emitVertices, hr]
    exact hr2

end Packing

section Reading

/-- On a text whose first line has at most `k` characters, `getline` stores that line; the stream
stays good exactly when a newline followed, and then holds the remaining lines. -/
theorem getlineScan_line (s : Str) : ∀ (k : Nat) (l : Str) (ls : List Str),
    s.splitOn '\n' = l :: ls → l.length ≤ k →
      (getlineScan '\n' k s).1 = l ∧
      (ls = [] → (getlineScan '\n' k s).2.2 = false) ∧
      (ls ≠ [] → (getlineScan '\n' k s).2.2 = true ∧
        (getlineScan '\n' k s).2.1.splitOn '\n' = ls) := by
  induction s with
  | nil =>
    intro k l ls h _
    rw [List.splitOn_nil] at h
    obtain ⟨h1, h2⟩ := List.cons.inj h
    subst h1; subst h2
    simp [getlineScan]
  | cons c cs ih =>
    intro k l ls h hk
    unfold List.splitOn at h ih
    rw [List.splitOnP_cons] at h
    by_cases hc : c = '\n'
    · subst hc
      simp only [beq_self_eq_true, if_true] at h
      obtain ⟨h1, h2⟩ := List.cons.inj h
      subst h1; subst h2
      cases k <;> simp [getlineScan, List.splitOn, List.splitOnP_ne_nil]
    · have hb : (c == '\n') = false := by simpa using hc
      simp only [hb] at h
      obtain ⟨l1, ls1, hsplit⟩ : ∃ l1 ls1, List.splitOnP (fun x => x == '\n') cs = l1 :: ls1 := by
        cases hs : List.splitOnP (fun x => x == '\n') cs with
        | nil => exact absurd hs (List.splitOnP_ne_nil _ _)
        | cons a b => exact ⟨a, b, rfl⟩
      rw [hsplit] at h
      simp only [List.modifyHead_cons, Bool.false_eq_true, if_false] at h
      obtain ⟨h1, h2⟩ := List.cons.inj h
      subst h1; subst h2
      cases k with
      | zero => simp at hk
      | succ k =>
        have hk1 : l1.length ≤ k := by simpa using hk
        obtain ⟨e1, e2, e3⟩ := ih k l1 ls1 hsplit hk1
        simp only [getlineScan, if_neg hc]
        refine ⟨by rw [e1], e2, ?_⟩
        intro hne
        exact ⟨(e3 hne).1, by unfold List.splitOn; exact (e3 hne).2⟩

/-- A text has at most one line more than it has characters. -/
theorem splitOn_length_le (s : Str) : (s.splitOn '\n').length ≤ s.length + 1 := by
  induction s with
  | nil => simp [List.splitOn_nil]
  | cons c cs ih =>
    unfold List.splitOn at ih ⊢
    rw [List.splitOnP_cons]
    split
    · simp; omega
    · simp; omega

/-- With enough iterations and no line longer than 511 characters, the reading loop hands every
line of the text to its body. -/
theorem readLinesLoop_eq (fuel : Nat) : ∀ s : Str, (s.splitOn '\n').length ≤ fuel →
    (∀ l ∈ s.splitOn '\n', l.length ≤ 511) →
      readLinesLoop fuel s = (s.splitOn '\n').map cstring := by
  induction fuel with
  | zero =>
    intro s h _
    have : s.splitOn '\n' ≠ [] := List.splitOnP_ne_nil _ _
    cases hs : s.splitOn '\n' with
    | nil => exact absurd hs this
    | cons a b => rw [hs] at h; simp at h
  | succ fuel ih =>
    intro s hfuel hlen
    cases hs : s.splitOn '\n' with
    | nil => exact absurd hs (List.splitOnP_ne_nil _ _)
    | cons l ls =>
      rw [hs] at hfuel hlen
      obtain ⟨e1, e2, e3⟩ := getlineScan_line s 511 l ls hs (hlen l (List.mem_cons_self l ls))
      by_cases hls : ls = []
      · subst hls
        simp [readLinesLoop, getline, e1, e2 rfl]
      · obtain ⟨g1, g2⟩ := e3 hls
        have hrec := ih (getlineScan '\n' 511 s).2.1 (by rw [g2]; simpa using hfuel)
          (by rw [g2]; intro x hx; exact hlen x (List.mem_cons_of_mem l hx))
        simp [readLinesLoop, getline, e1, g1, hrec, g2]

/-- When no line is longer than 511 characters, the reading loop sees every line of the text. -/
theorem readLines_eq_textLines (text : Str) (h : ∀ l ∈ text.splitOn '\n', l.length ≤ 511) :
    readLines text = textLines text :=
  readLinesLoop_eq (text.length + 1) text (splitOn_length_le text) h

end Reading

section Parsing
variable {V3 V2 : Type}

/-- The body of the reading loop of `loadObject` on one line, when a face line has at least three
vertex references: it completes, and pushes on the vector selected by the first word of the
line. -/
theorem loadObjectLine_spec (toVec3 : Str → V3) (toVec2 : Str → V2) (d : ObjData V3 V2)
    (l : Str) (hface : lineToken l = "f".toList → 3 ≤ (faceRefs l).length) :
    ∃ d1, loadObjectLine toVec3 toVec2 d l = some d1 ∧
      d1.positions = d.positions ++
        (if lineToken l = "v".toList then [toVec3 (lineRest l)] else []) ∧
      d1.normals = d.normals ++
        (if lineToken l = "vn".toList then [toVec3 (lineRest l)] else []) ∧
      d1.uvs = d.uvs ++
        (if lineToken l = "vt".toList then [toVec2 (lineRest l)] else []) ∧
      d1.triangles = d.triangles ++
        (if lineToken l = "f".toList then triangulate (faceRefs l) else []) := by
  unfold loadObjectLine
  simp only [lineToken, lineRest, faceRefs] at hface ⊢
  generalize (extractWord l).1.getD [] = token at hface ⊢
  by_cases h1 : token = "o".toList
  · subst h1; simp
  by_cases h2 : token = "g".toList
  · subst h2; simp
  by_cases h3 : token = "mtllib".toList
  · subst h3; simp
  by_cases h4 : token = "usemtl".toList
  · subst h4; simp
  by_cases h5 : token = "v".toList
  · subst h5; simp
  by_cases h6 : token = "vn".toList
  · subst h6; simp
  by_cases h7 : token = "vt".toList
  · subst h7; simp
  by_cases h8 : token = "f".toList
  · subst h8
    have h3 : 3 ≤ (readPolygon (extractWord l).2).length := hface rfl
    simp [h3]
  simp at h1 h2 h3 h4 h5 h6 h7 h8
  simp [h1, h2, h3, h4, h5, h6, h7, h8]

/-- The selection of the lines with a given first word, one line at a time, under `map`. -/
theorem filter_token_cons {β : Type} (tok : Str) (l : Str) (ls : List Str) (f : Str → β) :
    (if lineToken l = tok then [f l] else []) ++
        (ls.filter (fun x => lineToken x == tok)).map f =
      ((l :: ls).filter (fun x => lineToken x == tok)).map f := by
  rw [List.filter_cons]
  by_cases h : lineToken l = tok <;> simp [h]

/-- The selection of the lines with a given first word, one line at a time, under `flatMap`. -/
theorem filter_token_flatMap_cons {β : Type} (tok : Str) (l : Str) (ls : List Str)
    (f : Str → List β) :
    (if lineToken l = tok then f l else []) ++
        (ls.filter (fun x => lineToken x == tok)).flatMap f =
      ((l :: ls).filter (fun x => lineToken x == tok)).flatMap f := by
  rw [List.filter_cons]
  by_cases h : lineToken l = tok <;> simp [h]

/-- The number of lines with a given first word, one line at a time. -/
theorem filter_token_length_cons {β : Type} (tok : Str) (l : Str) (ls : List Str) (x : β) :
    (if lineToken l = tok then [x] else []).length +
        (ls.filter (fun x => lineToken x == tok)).length =
      ((l :: ls).filter (fun x => lineToken x == tok)).length := by
  rw [List.filter_cons]
  by_cases h : lineToken l = tok <;> simp [h]
  omega

/-- The reading loop of `loadObject` on a list of lines whose face lines have at least three
vertex references: it completes, with the positions of the `v` lines, one normal per `vn` line,
one texture coordinate per `vt` line, and the triangles of the `f` lines, all in order. -/
theorem loadObjectLines_spec (toVec3 : Str → V3) (toVec2 : Str → V2) (lines : List Str)
    (hface : ∀ l ∈ lines, lineToken l = "f".toList → 3 ≤ (faceRefs l).length) :
    ∀ d : ObjData V3 V2, ∃ d1, lines.foldlM (loadObjectLine toVec3 toVec2) d = some d1 ∧
      d1.positions = d.positions ++
        (lines.filter (fun l => lineToken l == "v".toList)).map (fun l => toVec3 (lineRest l)) ∧
      d1.normals.length = d.normals.length +
        (lines.filter (fun l => lineToken l == "vn".toList)).length ∧
      d1.uvs.length = d.uvs.length +
        (lines.filter (fun l => lineToken l == "vt".toList)).length ∧
      d1.triangles = d.triangles ++
        (lines.filter (fun l => lineToken l == "f".toList)).flatMap
          (fun l => triangulate (faceRefs l)) := by
  induction lines with
  | nil => intro d; exact ⟨d, rfl, by simp, by simp, by simp, by simp⟩
  | cons l ls ih =>
    intro d
    obtain ⟨d1, hd1, p1, n1, u1, t1⟩ := loadObjectLine_spec toVec3 toVec2 d l
      (hface l (List.mem_cons_self l ls))
    obtain ⟨d2, hd2, p2, n2, u2, t2⟩ := ih (fun x hx => hface x (List.mem_cons_of_mem l hx)) d1
    refine ⟨d2, ?_, ?_, ?_, ?_, ?_⟩
    · simp only [List.foldlM_cons, hd1]
      exact hd2
    · rw [p2, p1, List.append_assoc,
        filter_token_cons "v".toList l ls (fun l => toVec3 (lineRest l))]
    · rw [n2, n1, List.length_append, Nat.add_assoc, filter_token_length_cons]
    · rw [u2, u1, List.length_append, Nat.add_assoc, filter_token_length_cons]
    · rw [t2, t1, List.append_assoc,
        filter_token_flatMap_cons "f".toList l ls (fun l => triangulate (faceRefs l))]

end Parsing

section LoadObject
variable {V3 V2 : Type}

/-- Two lists related element by element are related at every index. -/
theorem forall₂_getElem? {α β : Type} {R : α → β → Prop} {l1 : List α} {l2 : List β}
    (h : List.Forall₂ R l1 l2) : ∀ (k : Nat) (b : β), l2[k]? = some b →
      ∃ a, l1[k]? = some a ∧ R a b := by
  induction h with
  | nil => intro k b hb; simp at hb
  | cons hab _ ih =>
    intro k b hb
    cases k with
    | zero =>
      simp only [List.getElem?_cons_zero, Option.some.injEq] at hb
      subst hb
      exact ⟨_, by simp, hab⟩
    | succ k =>
      simp only [List.getElem?_cons_succ] at hb ⊢
      exact ih k b hb

/-- C10, amended. For every OBJ text in which no line is longer than 511 characters, every face
has at least 3 vertex references, every position index is between 1 and the number of `v` lines,
and every normal and texture index is absent or between 1 and the number of `vn`, respectively
`vt`, lines: with the output vectors empty at the call, `loadObject` completes, `outIndices` has
one entry per emitted triangle corner, and for every `k` the entry `outIndices[k]` is a valid
index into `outPositions` at which stands the position given by the `v` line that the `k`-th
corner references, counted from 1 over the whole text. -/
theorem loadObject_reproduces_positions (toVec3 : Str → V3) (toVec2 : Str → V2)
    (objText mtl : Str)
    (hlen : ∀ l ∈ objText.splitOn '\n', l.length ≤ 511)
    (hface : ∀ l ∈ linesWith "f".toList objText, 3 ≤ (faceRefs l).length)
    (hpos : ∀ c ∈ cornerRefs objText,
      1 ≤ c.position ∧ c.position ≤ (linesWith "v".toList objText).length)
    (hnormal : ∀ c ∈ cornerRefs objText,
      c.normal = -1 ∨ (1 ≤ c.normal ∧ c.normal ≤ (linesWith "vn".toList objText).length))
    (huv : ∀ c ∈ cornerRefs objText,
      c.uv = -1 ∨ (1 ≤ c.uv ∧ c.uv ≤ (linesWith "vt".toList objText).length)) :
    ∃ r, loadObject toVec3 toVec2 objText [] [] [] [] mtl = some r ∧
      r.outIndices.length = (cornerRefs objText).length ∧
      ∀ (k : Nat) (c : TriangleIndex), (cornerRefs objText)[k]? = some c →
        ∃ i p, r.outIndices[k]? = some i ∧ i < r.outPositions.length ∧
          r.outPositions[i]? = some p ∧
          (vPositions toVec3 objText)[(c.position - 1).toNat]? = some p := by
  have hlines := readLines_eq_textLines objText hlen
  obtain ⟨d, hd, hp, hn, hu, ht⟩ := loadObjectLines_spec toVec3 toVec2 (textLines objText)
    (fun l hl htok => hface l (List.mem_filter.mpr ⟨hl, by simpa using htok⟩))
    { positions := [], normals := [], uvs := [], triangles := [], outMtlfilename := mtl }
  simp only [List.nil_append, List.length_nil, Nat.zero_add] at hp hn hu ht
  have hpos' : d.positions = vPositions toVec3 objText := hp
  have hcorners : d.triangles.flatMap TriangleString.corners = cornerRefs objText := by
    rw [ht]; rfl
  have hvalid : ∀ c ∈ d.triangles.flatMap TriangleString.corners,
      ValidRef d.positions.length d.normals.length d.uvs.length c := by
    intro c hc
    rw [hcorners] at hc
    rw [hp, hn, hu, List.length_map]
    exact ⟨hpos c hc, hnormal c hc, huv c hc⟩
  obtain ⟨r, hr, hall⟩ := emitVertices_spec d.positions d.normals d.uvs
    (d.triangles.flatMap TriangleString.corners) hvalid
    { outPositions := [], outNormal := [], outUv := [], cache := [] } [] []
    (by intro e he; simp at he) List.Forall₂.nil
  rw [List.nil_append, hcorners] at hall
  refine ⟨{ result := decide (r.1.outPositions.length > 0), outPositions := r.1.outPositions,
             outNormal := r.1.outNormal, outUv := r.1.outUv, outIndices := r.2,
             outMtlfilename := d.outMtlfilename }, ?_, ?_, ?_⟩
  · unfold loadObject
    rw [hlines, hd]
    simp only [hr]
  · exact hall.length_eq
  · intro k c hk
    obtain ⟨i, hi, p, hpi, hpc⟩ := forall₂_getElem? hall k c hk
    refine ⟨i, p, hi, ?_, hpi, ?_⟩
    · show i < r.1.outPositions.length
      by_contra hcon
      rw [List.getElem?_eq_none (by omega)] at hpi
      exact Option.noConfusion hpi
    · have h1 : 1 ≤ c.position := (hpos c (List.getElem?_mem hk)).1
      unfold vectorAt at hpc
      rw [if_pos (by omega), hpos'] at hpc
      exact hpc

/-- C10, amended, on a text with one triangle. -/
theorem loadObject_reproduces_positions_witness :
    ∃ r, loadObject (fun s => s) (fun s => s) objTriangle [] [] [] [] [] = some r ∧
      r.outIndices.length = (cornerRefs objTriangle).length ∧
      ∀ (k : Nat) (c : TriangleIndex), (cornerRefs objTriangle)[k]? = some c →
        ∃ i p, r.outIndices[k]? = some i ∧ i < r.outPositions.length ∧
          r.outPositions[i]? = some p ∧
          (vPositions (fun s => s) objTriangle)[(c.position - 1).toNat]? = some p :=
  loadObject_reproduces_positions (fun s => s) (fun s => s) objTriangle []
    (by decide) (by decide) (by decide) (by decide) (by decide)

/-- C10 as stated fails. The text `objMissingNormal` has short lines, a face with three vertex
references and position indices within the `v` lines, but `loadObject` reads the empty vector of
normals out of bounds and does not complete. -/
theorem loadObject_missing_normal_out_of_bounds :
    (∀ l ∈ objMissingNormal.splitOn '\n', l.length ≤ 511) ∧
      (∀ l ∈ linesWith "f".toList objMissingNormal, 3 ≤ (faceRefs l).length) ∧
      (∀ c ∈ cornerRefs objMissingNormal,
        1 ≤ c.position ∧ c.position ≤ (linesWith "v".toList objMissingNormal).length) ∧
      loadObject (fun s => s) (fun s => s) objMissingNormal [] [] [] [] [] = none := by
  decide

end LoadObject

section KeyOrder

/-- C14. The comparison `TriangleIndex::operator<` is a strict total order on the triples
(position, normal, uv): it is the lexicographic order on position, then normal, then uv; it is
irreflexive and transitive; for every `a` and `b` exactly one of `a < b`, `b < a` and "the three
fields are equal" holds; so two keys are equivalent for the map, neither below the other, exactly
when their three fields are equal. -/
theorem TriangleIndex.lt_strict_total_order :
    (∀ a b : TriangleIndex, a.lt b = true ↔
      Prod.Lex (fun x y : Int => x < y) (Prod.Lex (fun x y : Int => x < y) (fun x y : Int => x < y))
        (a.position, a.normal, a.uv) (b.position, b.normal, b.uv)) ∧
    (∀ a : TriangleIndex, a.lt a = false) ∧
    (∀ a b c : TriangleIndex, a.lt b = true → b.lt c = true → a.lt c = true) ∧
    (∀ a b : TriangleIndex,
      (a.lt b = true ∧ b.lt a = false ∧
          ¬ (a.position = b.position ∧ a.normal = b.normal ∧ a.uv = b.uv)) ∨
        (a.lt b = false ∧ b.lt a = true ∧
          ¬ (a.position = b.position ∧ a.normal = b.normal ∧ a.uv = b.uv)) ∨
        (a.lt b = false ∧ b.lt a = false ∧
          (a.position = b.position ∧ a.normal = b.normal ∧ a.uv = b.uv))) ∧
    (∀ a b : TriangleIndex, (a.lt b = false ∧ b.lt a = false) ↔
      (a.position = b.position ∧ a.normal = b.normal ∧ a.uv = b.uv)) := by
  refine ⟨?_, ?_, ?_, ?_, ?_⟩
  · intro a b
    simp only [TriangleIndex.lt, Prod.lex_def, Bool.or_eq_true, Bool.and_eq_true,
      decide_eq_true_eq]
    constructor
    · rintro ((h | h) | h)
      · exact Or.inl h
      · exact Or.inr ⟨h.1, Or.inl h.2⟩
      · exact Or.inr ⟨h.1.1, Or.inr ⟨h.1.2, h.2⟩⟩
    · rintro (h | ⟨h1, h2 | ⟨h2, h3⟩⟩)
      · exact Or.inl (Or.inl h)
      · exact Or.inl (Or.inr ⟨h1, h2⟩)
      · exact Or.inr ⟨⟨h1, h2⟩, h3⟩
  · intro a
    simp [TriangleIndex.lt]
  · intro a b c
    simp only [TriangleIndex.lt, Bool.or_eq_true, Bool.and_eq_true, decide_eq_true_eq]
    omega
  · intro a b
    cases hab : a.lt b <;> cases hba : b.lt a <;>
      simp [TriangleIndex.lt] at hab hba ⊢ <;> omega
  · intro a b
    simp only [TriangleIndex.lt, Bool.or_eq_false_iff, Bool.and_eq_false_iff,
      decide_eq_false_iff_not]
    omega

/-- C14, on the keys (1, 2, 3) < (1, 2, 4) < (1, 3, 0). -/
theorem TriangleIndex.lt_strict_total_order_witness :
    TriangleIndex.lt { position := 1, normal := 2, uv := 3 }
      { position := 1, normal := 3, uv := 0 } = true :=
  TriangleIndex.lt_strict_total_order.2.2.1 { position := 1, normal := 2, uv := 3 }
    { position := 1, normal := 2, uv := 4 } { position := 1, normal := 3, uv := 0 }
    (by decide) (by decide)

end KeyOrder

section Fan

variable {V3 V2 : Type}

end Fan

section GroupFan

variable {V3 V2 : Type}

/-- Two strings neither of which is below the other are equal. -/
theorem strLt_connected (a : Str) : ∀ b : Str, strLt a b = false → strLt b a = false → a = b := by
  induction a with
  | nil =>
    intro b h1 h2
    cases b with
    | nil => rfl
    | cons y ys => simp [strLt] at h1
  | cons x xs ih =>
    intro b h1 h2
    cases b with
    | nil => simp [strLt] at h2
    | cons y ys =>
      simp only [strLt, Bool.or_eq_false_iff, decide_eq_false_iff_not, Bool.and_eq_false_iff,
        beq_eq_false_iff_ne, ne_eq] at h1 h2
      have hxy : x.toNat = y.toNat := by omega
      have hchar : x = y := by
        rw [← Char.ofNat_toNat x, ← Char.ofNat_toNat y, hxy]
      have t1 : strLt xs ys = false := by
        rcases h1.2 with h | h
        · exact absurd hxy h
        · exact h
      have t2 : strLt ys xs = false := by
        rcases h2.2 with h | h
        · exact absurd hxy.symm h
        · exact h
      rw [hchar, ih ys t1 t2]

end GroupFan

section Numerals

/-- The left-to-right evaluation of digits agrees with positional notation. -/
theorem foldl_digits (ds : Str) : ∀ acc : Nat,
    ds.foldl (fun acc c => 10 * acc + (c.toNat - '0'.toNat)) acc =
      acc * 10 ^ ds.length + decimalValue ds := by
  induction ds with
  | nil => intro acc; simp [decimalValue]
  | cons c cs ih =>
    intro acc
    simp only [List.foldl_cons, ih, decimalValue, List.length_cons, pow_succ]
    ring

/-- On a string of digits `digitsValue` is the value in positional notation. -/
theorem digitsValue_eq (ds : Str) (h : ∀ c ∈ ds, c.isDigit = true) :
    digitsValue ds = decimalValue ds := by
  unfold digitsValue
  have htake : ds.takeWhile Char.isDigit = ds := by
    rw [List.takeWhile_eq_self_iff]
    exact h
  rw [htake, foldl_digits]
  simp

/-- A decimal digit is none of white space, a sign, a slash, the NUL character. -/
theorem isDigit_facts (c : Char) (h : c.isDigit = true) :
    isspace c = false ∧ c ≠ '-' ∧ c ≠ '+' ∧ c ≠ '/' ∧ c ≠ '\x00' := by
  refine ⟨?_, ?_, ?_, ?_, ?_⟩
  · cases hs : isspace c with
    | false => rfl
    | true =>
      simp only [isspace, Bool.or_eq_true, beq_iff_eq] at hs
      rcases hs with ((((h1 | h1) | h1) | h1) | h1) | h1 <;> subst h1 <;>
        exact absurd h (by decide)
  all_goals (intro hc; subst hc; exact absurd h (by decide))

/-- A value that fits in an `int` is left as it is by `strtol` and by the conversion to `int`. -/
theorem toInt32_clamp (v : Int) (h : FitsInt v) :
    toInt32 (max (-9223372036854775808) (min v 9223372036854775807)) = v := by
  obtain ⟨h1, h2⟩ := h
  have hmin : min v 9223372036854775807 = v := min_eq_left (by omega)
  have hmax : max (-9223372036854775808) v = v := max_eq_right (by omega)
  rw [hmin, hmax]
  unfold toInt32
  omega

/-- The function `atoi` reads a decimal numeral whose value fits in an `int`. -/
theorem atoi_decimal (s : Str) (v : Int) (hs : IsDecimal s v) (hv : FitsInt v) : atoi s = v := by
  obtain ⟨ds, hne, hdig, hform⟩ := hs
  obtain ⟨d, rest, rfl⟩ : ∃ d rest, ds = d :: rest := by
    cases ds with
    | nil => exact absurd rfl hne
    | cons d rest => exact ⟨d, rest, rfl⟩
  obtain ⟨f1, f2, f3, _, _⟩ := isDigit_facts d (hdig d (List.mem_cons_self d rest))
  have hval := digitsValue_eq (d :: rest) hdig
  unfold atoi strtol
  rcases hform with ⟨rfl, rfl⟩ | ⟨rfl, rfl⟩ | ⟨rfl, rfl⟩
  · have hdrop : (d :: rest).dropWhile isspace = d :: rest := by
      rw [List.dropWhile_cons_of_neg (by simp [f1])]
    rw [hdrop]
    have : (match d :: rest with
        | '-' :: ds => - (digitsValue ds : Int)
        | '+' :: ds => (digitsValue ds : Int)
        | ds => (digitsValue ds : Int)) = (digitsValue (d :: rest) : Int) := by
      split
      · rename_i heq
        exact absurd (List.cons.inj heq).1 f2
      · rename_i heq
        exact absurd (List.cons.inj heq).1 f3
      · rfl
    simp only [this, hval]
    exact toInt32_clamp _ hv
  · have hdrop : ('-' :: d :: rest).dropWhile isspace = '-' :: d :: rest := by
      rw [List.dropWhile_cons_of_neg (by decide)]
    rw [hdrop]
    simp only [hval]
    exact toInt32_clamp _ hv
  · have hdrop : ('+' :: d :: rest).dropWhile isspace = '+' :: d :: rest := by
      rw [List.dropWhile_cons_of_neg (by decide)]
    rw [hdrop]
    simp only [hval]
    exact toInt32_clamp _ hv

/-- A decimal numeral is not empty and contains neither a slash nor the NUL character. -/
theorem IsDecimal.chars {s : Str} {v : Int} (hs : IsDecimal s v) :
    s ≠ [] ∧ '/' ∉ s ∧ '\x00' ∉ s := by
  obtain ⟨ds, hne, hdig, hform⟩ := hs
  have hno : '/' ∉ ds ∧ '\x00' ∉ ds := by
    constructor
    · intro hm
      exact (isDigit_facts _ (hdig _ hm)).2.2.2.1 rfl
    · intro hm
      exact (isDigit_facts _ (hdig _ hm)).2.2.2.2 rfl
  rcases hform with ⟨rfl, _⟩ | ⟨rfl, _⟩ | ⟨rfl, _⟩
  · exact ⟨hne, hno.1, hno.2⟩
  · refine ⟨by simp, ?_, ?_⟩
    · intro hm
      rcases List.mem_cons.mp hm with h | h
      · exact absurd h (by decide)
      · exact hno.1 h
    · intro hm
      rcases List.mem_cons.mp hm with h | h
      · exact absurd h (by decide)
      · exact hno.2 h
  · refine ⟨by simp, ?_, ?_⟩
    · intro hm
      rcases List.mem_cons.mp hm with h | h
      · exact absurd h (by decide)
      · exact hno.1 h
    · intro hm
      rcases List.mem_cons.mp hm with h | h
      · exact absurd h (by decide)
      · exact hno.2 h

end Numerals

section ReferenceParsing

/-- A buffer without NUL character is its own C string. -/
theorem cstring_eq (s : Str) (h : '\x00' ∉ s) : cstring s = s := by
  unfold cstring
  rw [List.takeWhile_eq_self_iff]
  intro c hc
  have : c ≠ '\x00' := fun e => h (e ▸ hc)
  simpa using this

/-- On a stream that holds `s`, without delimiter and short enough, before a delimiter, `getline`
stores `s`, extracts the delimiter and leaves the stream good. -/
theorem getlineScan_delim (delim : Char) (s rest : Str) (h : delim ∉ s) : ∀ k : Nat,
    s.length ≤ k → getlineScan delim k (s ++ delim :: rest) = (s, rest, true) := by
  induction s with
  | nil => intro k _; cases k <;> simp [getlineScan]
  | cons c cs ih =>
    intro k hk
    have hc : ¬ c = delim := fun e => h (by simp [e])
    have hcs : delim ∉ cs := fun m => h (List.mem_cons_of_mem c m)
    cases k with
    | zero => simp at hk
    | succ k =>
      have hk1 : cs.length ≤ k := by simpa using hk
      have hrec := ih hcs k hk1
      rw [List.cons_append, getlineScan]
      simp only [if_neg hc, hrec]

/-- On a stream that holds only `s`, without delimiter and short enough, `getline` stores `s`
and reaches the end of the stream. -/
theorem getlineScan_end (delim : Char) (s : Str) (h : delim ∉ s) : ∀ k : Nat,
    s.length ≤ k → getlineScan delim k s = (s, [], false) := by
  induction s with
  | nil => intro k _; cases k <;> simp [getlineScan]
  | cons c cs ih =>
    intro k hk
    have hc : ¬ c = delim := fun e => h (by simp [e])
    have hcs : delim ∉ cs := fun m => h (List.mem_cons_of_mem c m)
    cases k with
    | zero => simp at hk
    | succ k =>
      have hk1 : cs.length ≤ k := by simpa using hk
      simp only [getlineScan, if_neg hc, ih hcs k hk1]

/-- A string without slash contains no `//`: `replace` leaves it as it is. -/
theorem replace_no_slash (s repl : Str) (h : '/' ∉ s) :
    TriangleIndex.replace s "//".toList repl = (s, false) := by
  induction s with
  | nil => simp [TriangleIndex.replace]
  | cons c cs ih =>
    have hc : ¬ c = '/' := fun e => h (by simp [e])
    have hcs : '/' ∉ cs := fun m => h (List.mem_cons_of_mem c m)
    have hstart : startsWith (c :: cs) "//".toList = false := by
      simp [startsWith, hc]
    simp only [TriangleIndex.replace, hstart, ih hcs]
    simp

/-- The member `replace` skips a prefix without slash. -/
theorem replace_skip (s rest repl : Str) (h : '/' ∉ s) :
    (TriangleIndex.replace (s ++ rest) "//".toList repl).1 =
      s ++ (TriangleIndex.replace rest "//".toList repl).1 := by
  induction s with
  | nil => simp
  | cons c cs ih =>
    have hc : ¬ c = '/' := fun e => h (by simp [e])
    have hcs : '/' ∉ cs := fun m => h (List.mem_cons_of_mem c m)
    have hstart : startsWith (c :: cs ++ rest) "//".toList = false := by
      simp [startsWith, hc]
    simp only [List.cons_append] at hstart ⊢
    simp only [TriangleIndex.replace, hstart, ih hcs]
    simp

/-- The member `replace` skips a single slash before a string that does not start with a
slash. -/
theorem replace_single_slash (s repl : Str) (hne : s ≠ []) (h : '/' ∉ s) (rest : Str) :
    (TriangleIndex.replace ('/' :: (s ++ rest)) "//".toList repl).1 =
      '/' :: (TriangleIndex.replace (s ++ rest) "//".toList repl).1 := by
  obtain ⟨c, cs, rfl⟩ : ∃ c cs, s = c :: cs := by
    cases s with
    | nil => exact absurd rfl hne
    | cons c cs => exact ⟨c, cs, rfl⟩
  have hc : ¬ c = '/' := fun e => h (by simp [e])
  have hstart : startsWith ('/' :: (c :: cs ++ rest)) "//".toList = false := by
    simp [startsWith, hc]
  simp only [List.cons_append] at hstart ⊢
  rw [TriangleIndex.replace]
  simp only [hstart]
  simp

/-- The member `replace` rewrites a double slash at the start. -/
theorem replace_double_slash (rest repl : Str) :
    (TriangleIndex.replace ('/' :: '/' :: rest) "//".toList repl).1 = repl ++ rest := by
  rw [TriangleIndex.replace]
  simp [startsWith]

end ReferenceParsing

section ReferenceFields

/-- The call `getline(buffer, 50, '/')` on a field followed by a slash. -/
theorem getline_field (s rest : Str) (h : '/' ∉ s) (hlen : s.length ≤ 49) :
    getline 50 '/' (s ++ '/' :: rest) = (s, rest, true) :=
  getlineScan_delim '/' s rest h 49 hlen

/-- The call `getline(buffer, 50, '/')` on the last field. -/
theorem getline_last_field (s : Str) (h : '/' ∉ s) (hlen : s.length ≤ 49) :
    getline 50 '/' s = (s, [], false) :=
  getlineScan_end '/' s h 49 hlen

/-- The constructor on a string that, after the replacement of `//`, holds three fields. -/
theorem ofString_three_fields (p a b c : Str)
    (hrep : (TriangleIndex.replace p "//".toList "/-1/".toList).1 = a ++ '/' :: (b ++ '/' :: c))
    (ha : '/' ∉ a ∧ '\x00' ∉ a ∧ a.length ≤ 49) (hb : '/' ∉ b ∧ '\x00' ∉ b ∧ b.length ≤ 49)
    (hc : '/' ∉ c ∧ '\x00' ∉ c ∧ c.length ≤ 49) :
    TriangleIndex.ofString p = { position := atoi a, normal := atoi c, uv := atoi b } := by
  unfold TriangleIndex.ofString
  simp only [hrep, getline_field a _ ha.1 ha.2.2, getline_field b _ hb.1 hb.2.2,
    getline_last_field c hc.1 hc.2.2, cstring_eq a ha.2.1, cstring_eq b hb.2.1,
    cstring_eq c hc.2.1, if_true]

/-- The constructor on a string that, after the replacement of `//`, holds two fields. -/
theorem ofString_two_fields (p a b : Str)
    (hrep : (TriangleIndex.replace p "//".toList "/-1/".toList).1 = a ++ '/' :: b)
    (ha : '/' ∉ a ∧ '\x00' ∉ a ∧ a.length ≤ 49) (hb : '/' ∉ b ∧ '\x00' ∉ b ∧ b.length ≤ 49) :
    TriangleIndex.ofString p = { position := atoi a, normal := -1, uv := atoi b } := by
  unfold TriangleIndex.ofString
  simp only [hrep, getline_field a _ ha.1 ha.2.2, getline_last_field b hb.1 hb.2.2,
    cstring_eq a ha.2.1, cstring_eq b hb.2.1, if_true]
  simp

/-- The constructor on a string that holds one field. -/
theorem ofString_one_field (p a : Str)
    (hrep : (TriangleIndex.replace p "//".toList "/-1/".toList).1 = a)
    (ha : '/' ∉ a ∧ '\x00' ∉ a ∧ a.length ≤ 49) :
    TriangleIndex.ofString p = { position := atoi a, normal := -1, uv := -1 } := by
  unfold TriangleIndex.ofString
  simp only [hrep, getline_last_field a ha.1 ha.2.2, cstring_eq a ha.2.1]
  simp

/-- C13, amended. The constructor `TriangleIndex(string)` reads a face vertex reference in the
order position/uv/normal: for decimal numerals of integers `p`, `t`, `n` that fit in a 32-bit
`int`, and for every reference string shorter than 50 characters, `p/t/n` yields position `p`,
uv `t`, normal `n`; `p//n` yields position `p`, uv -1, normal `n`; `p/t` yields position `p`,
uv `t`, normal -1; and `p` alone yields position `p`, uv -1, normal -1. -/
theorem TriangleIndex.ofString_reads_reference (sp st sn : Str) (p t n : Int)
    (hp : IsDecimal sp p) (ht : IsDecimal st t) (hn : IsDecimal sn n)
    (fp : FitsInt p) (ft : FitsInt t) (fn : FitsInt n) :
    ((sp ++ "/".toList ++ st ++ "/".toList ++ sn).length < 50 →
      TriangleIndex.ofString (sp ++ "/".toList ++ st ++ "/".toList ++ sn) =
        { position := p, normal := n, uv := t }) ∧
    ((sp ++ "//".toList ++ sn).length < 50 →
      TriangleIndex.ofString (sp ++ "//".toList ++ sn) =
        { position := p, normal := n, uv := -1 }) ∧
    ((sp ++ "/".toList ++ st).length < 50 →
      TriangleIndex.ofString (sp ++ "/".toList ++ st) =
        { position := p, normal := -1, uv := t }) ∧
    (sp.length < 50 →
      TriangleIndex.ofString sp = { position := p, normal := -1, uv := -1 }) := by
  obtain ⟨np, sp1, sp0⟩ := hp.chars
  obtain ⟨nt, st1, st0⟩ := ht.chars
  obtain ⟨nn, sn1, sn0⟩ := hn.chars
  have ap := atoi_decimal sp p hp fp
  have at_ := atoi_decimal st t ht ft
  have an := atoi_decimal sn n hn fn
  refine ⟨?_, ?_, ?_, ?_⟩
  · intro hlen
    simp only [String.toList, List.length_append, List.length_cons, List.length_nil] at hlen
    have hrep : (TriangleIndex.replace (sp ++ "/".toList ++ st ++ "/".toList ++ sn)
        "//".toList "/-1/".toList).1 = sp ++ '/' :: (st ++ '/' :: sn) := by
      have e : sp ++ "/".toList ++ st ++ "/".toList ++ sn =
          sp ++ ('/' :: (st ++ ('/' :: (sn ++ [])))) := by simp
      rw [e, replace_skip _ _ _ sp1, replace_single_slash st _ nt st1,
        replace_skip _ _ _ st1, replace_single_slash sn _ nn sn1,
        replace_skip _ _ _ sn1]
      simp [TriangleIndex.replace]
    rw [ofString_three_fields _ sp st sn hrep ⟨sp1, sp0, by omega⟩ ⟨st1, st0, by omega⟩
      ⟨sn1, sn0, by omega⟩, ap, at_, an]
  · intro hlen
    simp only [String.toList, List.length_append, List.length_cons, List.length_nil] at hlen
    have hrep : (TriangleIndex.replace (sp ++ "//".toList ++ sn)
        "//".toList "/-1/".toList).1 = sp ++ '/' :: ("-1".toList ++ '/' :: sn) := by
      have e : sp ++ "//".toList ++ sn = sp ++ ('/' :: '/' :: sn) := by simp
      rw [e, replace_skip _ _ _ sp1, replace_double_slash]
      simp
    have hminus : atoi "-1".toList = -1 := by decide
    rw [ofString_three_fields _ sp "-1".toList sn hrep ⟨sp1, sp0, by omega⟩
      ⟨by decide, by decide, by decide⟩ ⟨sn1, sn0, by omega⟩, ap, hminus, an]
  · intro hlen
    simp only [String.toList, List.length_append, List.length_cons, List.length_nil] at hlen
    have hrep : (TriangleIndex.replace (sp ++ "/".toList ++ st)
        "//".toList "/-1/".toList).1 = sp ++ '/' :: st := by
      have e : sp ++ "/".toList ++ st = sp ++ ('/' :: (st ++ [])) := by simp
      rw [e, replace_skip _ _ _ sp1, replace_single_slash st _ nt st1,
        replace_skip _ _ _ st1]
      simp [TriangleIndex.replace]
    rw [ofString_two_fields _ sp st hrep ⟨sp1, sp0, by omega⟩ ⟨st1, st0, by omega⟩, ap, at_]
  · intro hlen
    have hrep : (TriangleIndex.replace sp "//".toList "/-1/".toList).1 = sp := by
      rw [replace_no_slash sp _ sp1]
    rw [ofString_one_field _ sp hrep ⟨sp1, sp0, by omega⟩, ap]

/-- C13, amended, on the references `-12/+7/003`, `-12//003`, `-12/+7` and `-12`. -/
theorem TriangleIndex.ofString_reads_reference_witness :
    TriangleIndex.ofString "-12/+7/003".toList = { position := -12, normal := 3, uv := 7 } ∧
      TriangleIndex.ofString "-12//003".toList = { position := -12, normal := 3, uv := -1 } ∧
      TriangleIndex.ofString "-12/+7".toList = { position := -12, normal := -1, uv := 7 } ∧
      TriangleIndex.ofString "-12".toList = { position := -12, normal := -1, uv := -1 } :=
  have h := TriangleIndex.ofString_reads_reference "-12".toList "+7".toList "003".toList
    (-12) 7 3
    ⟨"12".toList, by decide, by decide, Or.inr (Or.inl ⟨rfl, by decide⟩)⟩
    ⟨"7".toList, by decide, by decide, Or.inr (Or.inr ⟨rfl, by decide⟩)⟩
    ⟨"003".toList, by decide, by decide, Or.inl ⟨rfl, by decide⟩⟩
    ⟨by decide, by decide⟩ ⟨by decide, by decide⟩ ⟨by decide, by decide⟩
  ⟨h.1 (by decide), h.2.1 (by decide), h.2.2.1 (by decide), h.2.2.2 (by decide)⟩

/-- C13 as stated fails. The reference `4294967297` is a decimal integer written with 10
characters; its value does not fit in the `int` member `position`, and the constructor yields
position 1. -/
theorem TriangleIndex.ofString_large_integer :
    IsDecimal "4294967297".toList 4294967297 ∧ "4294967297".toList.length < 50 ∧
      TriangleIndex.ofString "4294967297".toList = { position := 1, normal := -1, uv := -1 } ∧
      (TriangleIndex.ofString "4294967297".toList).position ≠ 4294967297 :=
  ⟨⟨"4294967297".toList, by decide, by decide, Or.inl ⟨rfl, by decide⟩⟩, by decide, by decide,
    by decide⟩

end ReferenceFields

section FirstUse

variable {V3 V2 : Type}

/-- The list of first uses extends the list of the vertices already seen. -/
theorem firstUsesFrom_extends (cs : List TriangleIndex) : ∀ seen : List TriangleIndex,
    ∃ ext, firstUsesFrom seen cs = seen ++ ext := by
  induction cs with
  | nil => intro seen; exact ⟨[], by simp [firstUsesFrom]⟩
  | cons c cs ih =>
    intro seen
    obtain ⟨ext, hext⟩ := ih (if c ∈ seen then seen else seen ++ [c])
    by_cases hc : c ∈ seen
    · refine ⟨ext, ?_⟩
      rw [firstUsesFrom, hext, if_pos hc]
    · refine ⟨c :: ext, ?_⟩
      rw [firstUsesFrom, hext, if_neg hc]
      simp

/-- The list of first uses has no duplicate. -/
theorem firstUsesFrom_nodup (cs : List TriangleIndex) : ∀ seen : List TriangleIndex,
    seen.Nodup → (firstUsesFrom seen cs).Nodup := by
  induction cs with
  | nil => intro seen h; exact h
  | cons c cs ih =>
    intro seen h
    rw [firstUsesFrom]
    apply ih
    by_cases hc : c ∈ seen
    · rw [if_pos hc]; exact h
    · rw [if_neg hc]
      exact List.Nodup.append h (List.nodup_singleton c) (by
        intro x hx hx1
        rw [List.mem_singleton] at hx1
        exact hc (hx1 ▸ hx))

/-- The list of first uses holds the vertices already seen and the vertices of the list. -/
theorem mem_firstUsesFrom (cs : List TriangleIndex) : ∀ (seen : List TriangleIndex)
    (x : TriangleIndex), x ∈ firstUsesFrom seen cs ↔ x ∈ seen ∨ x ∈ cs := by
  induction cs with
  | nil => intro seen x; simp [firstUsesFrom]
  | cons c cs ih =>
    intro seen x
    rw [firstUsesFrom, ih]
    by_cases hc : c ∈ seen
    · rw [if_pos hc]
      constructor
      · rintro (h | h)
        · exact Or.inl h
        · exact Or.inr (List.mem_cons_of_mem c h)
      · rintro (h | h)
        · exact Or.inl h
        · rcases List.mem_cons.mp h with e | e
          · exact Or.inl (e ▸ hc)
          · exact Or.inr e
    · rw [if_neg hc]
      simp only [List.mem_append, List.mem_singleton, List.mem_cons]
      tauto

/-- The number of first uses is the number of distinct vertices. -/
theorem firstUses_length (cs : List TriangleIndex) :
    (firstUses cs).length = cs.toFinset.card := by
  have hn : (firstUses cs).Nodup := firstUsesFrom_nodup cs [] List.nodup_nil
  rw [← List.toFinset_card_of_nodup hn]
  congr 1
  ext x
  simp [firstUses, mem_firstUsesFrom]

/-- The lookup in a cache with one more entry. -/
theorem cacheFind_cons (k : TriangleIndex) (v : Nat) (cache : List (TriangleIndex × Nat))
    (c : TriangleIndex) :
    cacheFind ((k, v) :: cache) c = if k = c then some v else cacheFind cache c := by
  unfold cacheFind
  by_cases h : k = c
  · subst h
    have hirr : k.lt k = false := by simp [TriangleIndex.lt]
    simp [List.find?_cons, hirr]
  · have hne : (!(k.lt c) && !(c.lt k)) = false := by
      cases h1 : k.lt c <;> cases h2 : c.lt k <;> simp
      exact h (TriangleIndex.eq_of_not_lt k c h1 h2)
    rw [if_neg h, List.find?_cons]
    simp only [hne]

/-- One step of the packing loop keeps the cache in step with the vertices seen: the index it
returns is the place of the vertex among the vertices seen so far, in the order of first use. -/
theorem emitVertex_firstUse (positions normals : List V3) (uvs : List V2) (o : VertexOut V3 V2)
    (c : TriangleIndex) (seen : List TriangleIndex) (r : Nat × VertexOut V3 V2)
    (hcache : CacheIs o.cache seen) (hlen : o.outPositions.length = seen.length)
    (hr : emitVertex positions normals uvs o c = some r) :
    r.1 = (if c ∈ seen then seen else seen ++ [c]).indexOf c ∧
      CacheIs r.2.cache (if c ∈ seen then seen else seen ++ [c]) ∧
      r.2.outPositions.length = (if c ∈ seen then seen else seen ++ [c]).length := by
  unfold emitVertex at hr
  have hfind := hcache c
  by_cases hc : c ∈ seen
  · rw [if_pos hc] at hfind
    simp only [hfind, Option.some.injEq] at hr
    subst hr
    simp only [if_pos hc]
    exact ⟨trivial, hcache, hlen⟩
  · rw [if_neg hc] at hfind
    simp only [hfind] at hr
    simp only [if_neg hc]
    cases hp : vectorAt positions (c.position - 1) with
    | none => simp [hp] at hr
    | some p =>
      simp only [hp] at hr
      split at hr
      · simp at hr
      · split at hr
        · simp at hr
        · simp only [Option.some.injEq] at hr
          subst hr
          refine ⟨?_, ?_, ?_⟩
          · simp only []
            rw [List.indexOf_append_of_not_mem hc, hlen]
            simp
          · intro x
            simp only []
            rw [cacheFind_cons, hcache x]
            by_cases hx : c = x
            · subst hx
              simp [List.indexOf_append_of_not_mem hc, hlen]
            · have hx' : ¬ x = c := fun e => hx e.symm
              by_cases hxs : x ∈ seen
              · simp [hx, hx', hxs, List.indexOf_append_of_mem hxs]
              · simp [hx, hx', hxs]
          · simp [hlen]

/-- The packing loop numbers the vertices in the order of first use: the index pushed for a
vertex is its place among the distinct vertices, and one position is pushed per distinct
vertex. -/
theorem emitVertices_firstUse (positions normals : List V3) (uvs : List V2)
    (cs : List TriangleIndex) : ∀ (o : VertexOut V3 V2) (indices : List Nat)
      (seen : List TriangleIndex) (r : VertexOut V3 V2 × List Nat),
      CacheIs o.cache seen → o.outPositions.length = seen.length →
      emitVertices positions normals uvs o indices cs = some r →
        r.2 = indices ++ cs.map (fun c => (firstUsesFrom seen cs).indexOf c) ∧
          r.1.outPositions.length = (firstUsesFrom seen cs).length := by
  induction cs with
  | nil =>
    intro o indices seen r _ hlen hr
    simp only [emitVertices, Option.some.injEq] at hr
    subst hr
    simp [firstUsesFrom, hlen]
  | cons c rest ih =>
    intro o indices seen r hcache hlen hr
    simp only [emitVertices] at hr
    cases hc : emitVertex positions normals uvs o c with
    | none => simp [hc] at hr
    | some rc =>
      simp only [hc] at hr
      obtain ⟨h1, h2, h3⟩ := emitVertex_firstUse positions normals uvs o c seen rc hcache hlen hc
      obtain ⟨g1, g2⟩ := ih rc.2 (indices ++ [rc.1])
        (if c ∈ seen then seen else seen ++ [c]) r h2 h3 hr
      have hmem : c ∈ (if c ∈ seen then seen else seen ++ [c]) := by
        by_cases hcs : c ∈ seen
        · rw [if_pos hcs]; exact hcs
        · rw [if_neg hcs]; simp
      obtain ⟨ext, hext⟩ := firstUsesFrom_extends rest (if c ∈ seen then seen else seen ++ [c])
      refine ⟨?_, ?_⟩
      · rw [g1, List.map_cons, firstUsesFrom, List.append_assoc, List.singleton_append]
        congr 2
        rw [h1, hext, List.indexOf_append_of_mem hmem]
      · rw [g2, firstUsesFrom]

end FirstUse

section DistinctVertices

variable {V3 V2 : Type}

set_option maxRecDepth 100000

/-- On a text with short lines, faces of at least three vertex references and references within
the vertex data, `loadObject` called with empty output vectors completes: the reading loop
collects the vertices of the faces of the text, and the packing loop, run on them, gives the
result. -/
theorem loadObject_run (toVec3 : Str → V3) (toVec2 : Str → V2) (objText mtl : Str)
    (hlen : ∀ l ∈ objText.splitOn '\n', l.length ≤ 511)
    (hface : ∀ l ∈ linesWith "f".toList objText, 3 ≤ (faceRefs l).length)
    (hpos : ∀ c ∈ cornerRefs objText,
      1 ≤ c.position ∧ c.position ≤ (linesWith "v".toList objText).length)
    (hnormal : ∀ c ∈ cornerRefs objText,
      c.normal = -1 ∨ (1 ≤ c.normal ∧ c.normal ≤ (linesWith "vn".toList objText).length))
    (huv : ∀ c ∈ cornerRefs objText,
      c.uv = -1 ∨ (1 ≤ c.uv ∧ c.uv ≤ (linesWith "vt".toList objText).length)) :
    ∃ (d : ObjData V3 V2) (e : VertexOut V3 V2 × List Nat),
      emitVertices d.positions d.normals d.uvs
          { outPositions := [], outNormal := [], outUv := [], cache := [] }
          [] (cornerRefs objText) = some e ∧
        loadObject toVec3 toVec2 objText [] [] [] [] mtl =
          some { result := decide (e.1.outPositions.length > 0),
                 outPositions := e.1.outPositions, outNormal := e.1.outNormal,
                 outUv := e.1.outUv, outIndices := e.2,
                 outMtlfilename := d.outMtlfilename } := by
  have hlines := readLines_eq_textLines objText hlen
  obtain ⟨d, hd, hp, hn, hu, ht⟩ := loadObjectLines_spec toVec3 toVec2 (textLines objText)
    (fun l hl htok => hface l (List.mem_filter.mpr ⟨hl, by simpa using htok⟩))
    { positions := [], normals := [], uvs := [], triangles := [], outMtlfilename := mtl }
  simp only [List.nil_append, List.length_nil, Nat.zero_add] at hp hn hu ht
  have hcorners : d.triangles.flatMap TriangleString.corners = cornerRefs objText := by
    rw [ht]; rfl
  have hvalid : ∀ c ∈ cornerRefs objText,
      ValidRef d.positions.length d.normals.length d.uvs.length c := by
    intro c hc
    rw [hp, hn, hu, List.length_map]
    exact ⟨hpos c hc, hnormal c hc, huv c hc⟩
  obtain ⟨e, he, _⟩ := emitVertices_spec d.positions d.normals d.uvs (cornerRefs objText) hvalid
    { outPositions := [], outNormal := [], outUv := [], cache := [] } [] []
    (by intro x hx; simp at hx) List.Forall₂.nil
  refine ⟨d, e, he, ?_⟩
  unfold loadObject
  rw [hlines, hd]
  simp only [hcorners, he]

/-- C12, amended. For every OBJ text in which no line is longer than 511 characters, every face
has at least 3 vertex references and every reference is valid (position indices between 1 and
the number of `v` lines, normal and texture indices absent or within the `vn` and `vt` lines),
and with the output vectors empty at the call, `loadObject` completes and emits each distinct
vertex once: two triangle corners receive the same value in `outIndices` if and only if their
(position, normal, uv) triples are equal; `outPositions.size()` is the number of distinct triples
referenced by the faces; and the output vertices are numbered 0, 1, 2, ... in the order of first
use, the value pushed for a corner being the place of its triple among the distinct triples in
that order. -/
theorem loadObject_distinct_vertices (toVec3 : Str → V3) (toVec2 : Str → V2)
    (objText mtl : Str)
    (hlen : ∀ l ∈ objText.splitOn '\n', l.length ≤ 511)
    (hface : ∀ l ∈ linesWith "f".toList objText, 3 ≤ (faceRefs l).length)
    (hpos : ∀ c ∈ cornerRefs objText,
      1 ≤ c.position ∧ c.position ≤ (linesWith "v".toList objText).length)
    (hnormal : ∀ c ∈ cornerRefs objText,
      c.normal = -1 ∨ (1 ≤ c.normal ∧ c.normal ≤ (linesWith "vn".toList objText).length))
    (huv : ∀ c ∈ cornerRefs objText,
      c.uv = -1 ∨ (1 ≤ c.uv ∧ c.uv ≤ (linesWith "vt".toList objText).length)) :
    ∃ r, loadObject toVec3 toVec2 objText [] [] [] [] mtl = some r ∧
      (∀ (j k : Nat) (cj ck : TriangleIndex), (cornerRefs objText)[j]? = some cj →
        (cornerRefs objText)[k]? = some ck →
          (r.outIndices[j]? = r.outIndices[k]? ↔
            (cj.position = ck.position ∧ cj.normal = ck.normal ∧ cj.uv = ck.uv))) ∧
      r.outPositions.length = (cornerRefs objText).toFinset.card ∧
      r.outIndices =
        (cornerRefs objText).map (fun c => (firstUses (cornerRefs objText)).indexOf c) := by
  obtain ⟨d, e, he, hrun⟩ :=
    loadObject_run toVec3 toVec2 objText mtl hlen hface hpos hnormal huv
  obtain ⟨hidx, hsize⟩ := emitVertices_firstUse d.positions d.normals d.uvs (cornerRefs objText)
    { outPositions := [], outNormal := [], outUv := [], cache := [] } [] [] e
    (by intro c; simp [cacheFind]) rfl he
  simp only [List.nil_append] at hidx
  refine ⟨_, hrun, ?_, ?_, ?_⟩
  · intro j k cj ck hj hk
    show e.2[j]? = e.2[k]? ↔ _
    have hmj : cj ∈ firstUses (cornerRefs objText) :=
      (mem_firstUsesFrom _ [] cj).mpr (Or.inr (List.getElem?_mem hj))
    have hmk : ck ∈ firstUses (cornerRefs objText) :=
      (mem_firstUsesFrom _ [] ck).mpr (Or.inr (List.getElem?_mem hk))
    rw [hidx, List.getElem?_map, List.getElem?_map, hj, hk]
    simp only [Option.map_some', Option.some.injEq]
    rw [show firstUsesFrom [] (cornerRefs objText) = firstUses (cornerRefs objText) from rfl,
      List.indexOf_inj hmj hmk]
    constructor
    · intro h; subst h; exact ⟨rfl, rfl, rfl⟩
    · rintro ⟨h1, h2, h3⟩
      cases cj; cases ck
      simp only at h1 h2 h3
      subst h1; subst h2; subst h3
      rfl
  · show e.1.outPositions.length = _
    rw [hsize, ← firstUses_length]
    rfl
  · exact hidx

/-- C12, amended, on a text with two triangles that share an edge. -/
theorem loadObject_distinct_vertices_witness :
    ∃ r, loadObject (fun s => s) (fun s => s) objTwoTriangles [] [] [] [] [] = some r ∧
      (∀ (j k : Nat) (cj ck : TriangleIndex), (cornerRefs objTwoTriangles)[j]? = some cj →
        (cornerRefs objTwoTriangles)[k]? = some ck →
          (r.outIndices[j]? = r.outIndices[k]? ↔
            (cj.position = ck.position ∧ cj.normal = ck.normal ∧ cj.uv = ck.uv))) ∧
      r.outPositions.length = (cornerRefs objTwoTriangles).toFinset.card ∧
      r.outIndices =
        (cornerRefs objTwoTriangles).map
          (fun c => (firstUses (cornerRefs objTwoTriangles)).indexOf c) :=
  loadObject_distinct_vertices (fun s => s) (fun s => s) objTwoTriangles []
    (by decide) (by decide) (by decide) (by decide) (by decide)

/-- C12 as stated fails. In `objLongLine` every reference of the face is valid and the face
references one triple, but the face line comes after a line of 512 characters, at which the
reading loop stops: with the output vectors empty at the call, `loadObject` completes with
`outPositions` empty. -/
theorem long_line_hides_vertices :
    (∀ l ∈ linesWith "f".toList objLongLine, 3 ≤ (faceRefs l).length) ∧
      (∀ c ∈ cornerRefs objLongLine,
        (1 ≤ c.position ∧ c.position ≤ (linesWith "v".toList objLongLine).length) ∧
          c.normal = -1 ∧ c.uv = -1) ∧
      (cornerRefs objLongLine).toFinset.card = 1 ∧
      (loadObject (fun s => s) (fun s => s) objLongLine [] [] [] [] []).map
        (fun r => (r.outPositions.length, r.outIndices)) = some (0, []) := by
  decide

end DistinctVertices

section GroupMap

variable {β : Type}

/-- The order of strings is transitive. -/
theorem strLt_trans (a : Str) : ∀ b c : Str, strLt a b = true → strLt b c = true →
    strLt a c = true := by
  induction a with
  | nil =>
    intro b c h1 h2
    cases b with
    | nil => simp [strLt] at h1
    | cons y ys =>
      cases c with
      | nil => simp [strLt] at h2
      | cons z zs => simp [strLt]
  | cons x xs ih =>
    intro b c h1 h2
    cases b with
    | nil => simp [strLt] at h1
    | cons y ys =>
      cases c with
      | nil => simp [strLt] at h2
      | cons z zs =>
        simp only [strLt, Bool.or_eq_true, decide_eq_true_eq, Bool.and_eq_true, beq_iff_eq]
          at h1 h2 ⊢
        rcases h1 with h1 | ⟨e1, t1⟩
        · rcases h2 with h2 | ⟨e2, _⟩
          · exact Or.inl (by omega)
          · exact Or.inl (by omega)
        · rcases h2 with h2 | ⟨e2, t2⟩
          · exact Or.inl (by omega)
          · exact Or.inr ⟨by omega, ih ys zs t1 t2⟩

/-- An entry of the map after `m[key] = value` has the key `key` or is an entry of `m`. -/
theorem mem_mapSet (m : List (Str × β)) (key : Str) (value : β) :
    ∀ x ∈ mapSet m key value, x.1 = key ∨ x ∈ m := by
  induction m with
  | nil =>
    intro x hx
    simp only [mapSet, List.mem_singleton] at hx
    exact Or.inl (by rw [hx])
  | cons e rest ih =>
    intro x hx
    unfold mapSet at hx
    by_cases h1 : strLt key e.1 = true
    · rw [if_pos h1] at hx
      rcases List.mem_cons.mp hx with h | h
      · exact Or.inl (by rw [h])
      · exact Or.inr h
    · rw [if_neg h1] at hx
      by_cases h2 : strLt e.1 key = true
      · rw [if_pos h2] at hx
        rcases List.mem_cons.mp hx with h | h
        · exact Or.inr (by rw [h]; exact List.mem_cons_self e rest)
        · rcases ih x h with g | g
          · exact Or.inl g
          · exact Or.inr (List.mem_cons_of_mem e g)
      · rw [if_neg h2] at hx
        have heq : e.1 = key :=
          strLt_connected e.1 key (by simpa using h2) (by simpa using h1)
        rcases List.mem_cons.mp hx with h | h
        · exact Or.inl (by rw [h]; exact heq)
        · exact Or.inr (List.mem_cons_of_mem e h)

/-- The assignment `m[key] = value` keeps the keys in increasing order. -/
theorem KeysSorted.mapSet {m : List (Str × β)} (h : KeysSorted m) (key : Str) (value : β) :
    KeysSorted (mapSet m key value) := by
  induction m with
  | nil => simp [Vimix.mapSet, KeysSorted]
  | cons e rest ih =>
    unfold KeysSorted at h ih ⊢
    have hrest := (List.pairwise_cons.mp h).2
    have hhead := (List.pairwise_cons.mp h).1
    unfold Vimix.mapSet
    by_cases h1 : strLt key e.1 = true
    · rw [if_pos h1]
      refine List.pairwise_cons.mpr ⟨?_, h⟩
      intro x hx
      rcases List.mem_cons.mp hx with hxe | hxr
      · rw [hxe]; exact h1
      · exact strLt_trans _ _ _ h1 (hhead x hxr)
    · rw [if_neg h1]
      by_cases h2 : strLt e.1 key = true
      · rw [if_pos h2]
        refine List.pairwise_cons.mpr ⟨?_, ih hrest⟩
        intro x hx
        rcases mem_mapSet rest key value x hx with g | g
        · rw [g]; exact h2
        · exact hhead x g
      · rw [if_neg h2]
        exact List.pairwise_cons.mpr ⟨hhead, hrest⟩

end GroupMap

section GroupFaces

end GroupFaces

section GroupSteps

variable {V3 V2 : Type}

end GroupSteps

section GroupLines

variable {V3 V2 : Type}

end GroupLines

section GroupRun

variable {V3 V2 : Type}

end GroupRun

section Numbering

variable {V3 V2 : Type}

end Numbering

section FanOutputs

variable {V3 V2 : Type}

end FanOutputs

section FanClaim

variable {V3 V2 : Type}

set_option maxRecDepth 100000

end FanClaim

section FanInputs

set_option maxRecDepth 100000

end FanInputs

end Vimix
